import Mathlib

set_option linter.unusedVariables false

/-!
Shallow embedding of `psi4/driver/procrouting/response/scf_response.py`
(the response-property engine of Psi4): the CPSCF static linear-response
pipeline (`cpscf_linear_response`) and the TDSCF excited-state
orchestrator (`tdscf_excitations`), together with theorems checking the
natural-language specification of the module against this embedding.

Numbers are modelled exactly: Python integers as `Int`/`Nat` (Python's
floor division `//` and modulo `%` are `Int.fdiv`/`Int.fmod`), floating
point values as `Rat`, and the single irrational constant
`np.sqrt(2.0)` as the element `sqrt2` of the quadratic field
`Q(sqrt 2)`, represented by pairs of rationals.  External collaborators
(the iterative eigensolvers, the CPHF solve, the integral provider) are
modelled as oracle functions passed to the embedded pipeline; engine
state (the working symmetry set by `reset_for_state_symm`) is passed
explicitly.
-/

namespace Psi4

/-! ## Scalars: the field Q(sqrt 2) -/

/-- An element `a + b * sqrt 2` of the quadratic field `Q(sqrt 2)`.
This gives an exact, computable carrier for the factor `np.sqrt(2.0)`
used to rescale eigenvectors at lines 443-447 of the source. -/
structure Q2 where
  a : Rat
  b : Rat
deriving DecidableEq, Repr

/-- Multiplication in `Q(sqrt 2)`: `(a + b √2)(c + d √2) = (ac + 2bd) + (ad + bc)√2`. -/
def Q2.mul (x y : Q2) : Q2 :=
  ⟨x.a * y.a + 2 * x.b * y.b, x.a * y.b + x.b * y.a⟩

/-- The rational `q` viewed as an element of `Q(sqrt 2)`. -/
def Q2.ofRat (q : Rat) : Q2 := ⟨q, 0⟩

/-- The constant `np.sqrt(2.0)` of the source, as the element `sqrt 2`. -/
def Q2.sqrt2 : Q2 := ⟨0, 1⟩

theorem Q2.sqrt2_mul_sqrt2 : Q2.mul Q2.sqrt2 Q2.sqrt2 = Q2.ofRat 2 := by
  unfold Q2.mul Q2.sqrt2 Q2.ofRat
  norm_num

/-! ## TDSCF: data model -/

/-- The `states` argument of `tdscf_excitations`: a Python value that is
either an integer, a list of integers, or something of any other type. -/
inductive StatesArg where
  | int (n : Int)
  | list (l : List Int)
  | other
deriving DecidableEq, Repr

/-- The fields of the reference wavefunction (and of its functional)
consulted by `tdscf_excitations`: irrep count and labels, the
restricted/unrestricted flag `same_a_b_orbs`, the functional kind flags,
the functional name, the ground-state energy and the ground-state
symmetry `G_gs` exposed by the engine. -/
structure TdWfn where
  nirrep : Nat
  irrep_labels : List String
  same_a_b_orbs : Bool
  needs_xc : Bool
  is_gga : Bool
  is_meta : Bool
  functional_name : String
  energy : Rat
  G_gs : Nat
deriving DecidableEq, Repr

/-- Line 381 of the source: `do_triplets = False if triplets == "none" else True`. -/
def doTriplets (triplets : String) : Bool := !(triplets == "none")

/-- Python's `str.lower()` (ASCII case folding), applied characterwise;
used at line 394 of the source (`guess.lower()`). -/
def strLower (s : String) : String := String.mk (s.data.map Char.toLower)

/-- The validation checks of `tdscf_excitations` that follow the
`states` checks (lines 383-395), in source order; returns the message of
the first failing check. -/
def tdscfValidateRest (w : TdWfn) (triplets guess : String) : Option String :=
  if !w.same_a_b_orbs && doTriplets triplets then
    some "Cannot compute triplets with an unrestricted reference"
  else if w.same_a_b_orbs && w.needs_xc && doTriplets triplets then
    some "Restricted Vx kernel only spin-adapted for singlets"
  else if !w.same_a_b_orbs && (w.is_gga || w.is_meta) then
    some "Unrestricted Kohn-Sham Vx kernel currently limited to SVWN functional"
  else if strLower guess != "denominators" then
    some ("Guess type " ++ guess ++ " is not valid")
  else
    none

/-- All validation checks of `tdscf_excitations` (lines 362-395), in
source order; returns the message of the first failing check, or `none`
when the request is valid. -/
def tdscfValidate (w : TdWfn) (states : StatesArg) (triplets guess : String) :
    Option String :=
  match states with
  | .other => some "Number of states must be either an integer or a list of integers"
  | .list l =>
    if l.length != w.nirrep then
      some ("States requested (" ++ toString l ++ ") do not match with number of irreps ("
        ++ toString w.nirrep ++ ")")
    else
      tdscfValidateRest w triplets guess
  | .int _ => tdscfValidateRest w triplets guess

/-- The loop `for i in range(r): l[i] += 1` (lines 376-377), adding one
to each of the first `r` entries of a list. -/
def addOneToFirst : Nat → List Int → List Int
  | 0, l => l
  | _ + 1, [] => []
  | r + 1, x :: xs => (x + 1) :: addOneToFirst r xs

/-- Lines 366-377 of the source: the number of singlet states per irrep.
A list argument is taken entrywise; a scalar total `n` is distributed as
`[n // nirrep] * nirrep` with one extra unit added to each of the first
`n % nirrep` irreps.  (On the `other` branch validation has already
failed; the value is irrelevant.) -/
def singletsPerIrrep (w : TdWfn) (states : StatesArg) : List Int :=
  match states with
  | .list l => l
  | .int n => addOneToFirst (n.fmod w.nirrep).toNat
      (List.replicate w.nirrep (n.fdiv w.nirrep))
  | .other => []

/-- Line 382 of the source: `triplets_per_irrep = singlets_per_irrep`. -/
def tripletsPerIrrep (w : TdWfn) (states : StatesArg) : List Int :=
  singletsPerIrrep w states

/-! ## TDSCF: engine and solver model -/

/-- The problem type selected at lines 397-402: `'rpa'` or `'tda'`. -/
inductive PType where
  | rpa
  | tda
deriving DecidableEq, Repr

/-- The engine constructed at lines 412-416: `TDRSCFEngine(wfn, ptype,
triplet=do_triplets)` for a restricted reference, `TDUSCFEngine(wfn,
ptype)` for an unrestricted one. -/
inductive EngineSpec where
  | restrictedEngine (ptype : PType) (triplet : Bool)
  | unrestrictedEngine (ptype : PType)
deriving DecidableEq, Repr

/-- The iterative solver selected at lines 397-402:
`solvers.davidson_solver` when `tda` is true, otherwise
`solvers.hamiltonian_solver`. -/
inductive SolverKind where
  | davidson
  | hamiltonian
deriving DecidableEq, Repr

/-- One entry of the `stats` list returned by the iterative solvers;
only the `done` flag is consulted by `tdscf_excitations`. -/
structure SolveStat where
  done : Bool
deriving DecidableEq, Repr

/-- The dictionary returned by the iterative solvers (line 427-435):
eigenvalues, `(R, L)` eigenvector pairs and convergence statistics. -/
structure SolveResult (V : Type) where
  eigvals : List Rat
  eigvecs : List (V × V)
  stats : List SolveStat

/-- Functional model of the external engine and iterative solvers
(`TDRSCFEngine`/`TDUSCFEngine` from `scf_products` and
`davidson_solver`/`hamiltonian_solver` from `p4util.solvers`, both
outside this module).  The engine's mutable working symmetry (set by
`reset_for_state_symm`) is passed explicitly as the `Nat` argument.
`solve` takes the solver kind, the engine, the working symmetry and the
keyword arguments `nroot`, `r_tol`, `max_vecs_per_root`, `maxiter`,
`guess` of the source call. -/
structure SolverOracle (V G : Type) where
  generate_guess : EngineSpec → Nat → Int → G
  solve : SolverKind → EngineSpec → Nat → Int → Rat → Int → Nat → G → SolveResult V
  vector_scale : EngineSpec → Q2 → V → V

/-- Observable engine/solver interactions of the per-irrep loop, in call
order: `engine.reset_for_state_symm`, `engine.generate_guess`, and the
invocation of the iterative solver. -/
inductive TdEvent where
  | resetForStateSymm (symm : Nat)
  | generateGuess (symm : Nat) (count : Int)
  | solveCall (kind : SolverKind) (symm : Nat) (nroot : Int) (rtol : Rat)
      (maxVecsPerRoot : Int) (maxiter : Nat)
deriving DecidableEq, Repr

/-- The payload of a `TDSCFConvergenceError` (line 441): the iteration
bound and the message naming the spin channel and the irrep. -/
structure ConvergenceFailure where
  maxiter : Nat
  what : String
deriving DecidableEq, Repr

/-- The errors `tdscf_excitations` can raise: a `ValidationError` or a
`TDSCFConvergenceError`. -/
inductive TdError where
  | validation (msg : String)
  | convergence (e : ConvergenceFailure)
deriving DecidableEq, Repr

/-- The check `ret["stats"][-1]["done"]` of line 437 (the `done` flag of
the final convergence record; `false` when the stats list is empty). -/
def finalDone {V : Type} (r : SolveResult V) : Bool :=
  (r.stats.getLast?.map SolveStat.done).getD false

/-- Line 445-446: rescale both members of an eigenvector pair by
`np.sqrt(2.0)` through `engine.vector_scale`. -/
def scaleBoth {V G : Type} (o : SolverOracle V G) (spec : EngineSpec) (p : V × V) :
    V × V :=
  (o.vector_scale spec Q2.sqrt2 p.1, o.vector_scale spec Q2.sqrt2 p.2)

/-- The per-irrep loop of `tdscf_excitations` (lines 418-452) over the
enumerated list of per-irrep state counts.  Returns the trace of
engine/solver interactions together with either the first convergence
failure or the flattened list of result tuples `(e, R, L, state_sym)`. -/
def runIrreps {V G : Type} (o : SolverOracle V G) (spec : EngineSpec)
    (labels : List String) (tda do_triplets : Bool) (r_tol : Rat)
    (max_ss_vec : Int) (maxiter : Nat) :
    List (Nat × Int) →
    List TdEvent × Except ConvergenceFailure (List (Rat × V × V × Nat))
  | [] => ([], .ok [])
  | (state_sym, nstates) :: rest =>
    if nstates == 0 then
      runIrreps o spec labels tda do_triplets r_tol max_ss_vec maxiter rest
    else
      let guess_ := o.generate_guess spec state_sym (nstates * 2)
      let vecs_per_root := max_ss_vec.fdiv nstates
      let kind := if tda then SolverKind.davidson else SolverKind.hamiltonian
      let ret := o.solve kind spec state_sym nstates r_tol vecs_per_root maxiter guess_
      let evts := [TdEvent.resetForStateSymm state_sym,
                   TdEvent.generateGuess state_sym (nstates * 2),
                   TdEvent.solveCall kind state_sym nstates r_tol vecs_per_root maxiter]
      if finalDone ret = false then
        let spin := if do_triplets then "triplet" else "singlet"
        (evts, .error ⟨maxiter, spin ++ " excitations in irrep " ++ labels.getD state_sym ""⟩)
      else
        let scaled := ret.eigvecs.map (scaleBoth o spec)
        let block := (ret.eigvals.zip scaled).map (fun p => (p.1, p.2.1, p.2.2, state_sym))
        let rec_ := runIrreps o spec labels tda do_triplets r_tol max_ss_vec maxiter rest
        (evts ++ rec_.1, rec_.2.map (fun rs => block ++ rs))

/-- Line 455 of the source: `sorted(_results, key=lambda x: x[0])` — a
stable sort of the result tuples keyed on the excitation energy alone. -/
def sortByEnergy {V : Type} (rs : List (Rat × V × V × Nat)) :
    List (Rat × V × V × Nat) :=
  rs.mergeSort (fun x y => decide (x.1 ≤ y.1))

/-! ## TDSCF: spectroscopic post-processing -/

/-- The transformed property integrals built at lines 476-480: the
length-gauge electric dipole (`so_dipole`), the velocity-gauge electric
dipole (`so_nabla`) and the magnetic dipole (`so_angular_momentum`)
integral components, already projected to the occupied-virtual block. -/
structure PropertyIntegrals (V : Type) where
  lengthGaugeElectricDipole : List V
  velocityGaugeElectricDipole : List V
  magneticDipole : List V

/-- `np.einsum("i,i", a, b)`: the dot product of two vectors of
components. -/
def einsumII (a b : List Rat) : Rat :=
  (List.zipWith (fun x y => x * y) a b).sum

/-- The per-root spectroscopic quantities computed at lines 498-514:
transition moments, oscillator strengths and rotatory strengths. -/
structure SpectroData where
  edtm_length : List Rat
  f_length : Rat
  edtm_velocity : List Rat
  f_velocity : Rat
  mdtm : List Rat
  R_velocity : Rat
  R_length : Rat
deriving DecidableEq, Repr

/-- Lines 498-514 of the source, for one merged root: the length-gauge
electric-dipole transition moment is the projection of `R` on each dipole
integral, the velocity-gauge moment the projection of `L` on each nabla
integral, the magnetic moment `0.5` times the projection of `L` on each
angular-momentum integral; oscillator and rotatory strengths follow the
source formulas (`vector_dot` is the external matrix dot product,
passed as `dot`). -/
def spectroscopicObservables {V : Type} (dot : V → V → Rat)
    (ints : PropertyIntegrals V) (E_ex : Rat) (R L : V) : SpectroData :=
  let edtm_length := ints.lengthGaugeElectricDipole.map (fun p => dot R p)
  let f_length := 2 / 3 * E_ex * (edtm_length.map (fun x => x ^ 2)).sum
  let edtm_velocity := ints.velocityGaugeElectricDipole.map (fun p => dot L p)
  let f_velocity := 2 / 3 * (edtm_velocity.map (fun x => x ^ 2)).sum / E_ex
  let mdtm := ints.magneticDipole.map (fun p => 1 / 2 * dot L p)
  let R_velocity := -einsumII edtm_velocity mdtm / E_ex
  let R_length := einsumII edtm_length mdtm
  ⟨edtm_length, f_length, edtm_velocity, f_velocity, mdtm, R_velocity, R_length⟩

/-- One element of the returned `solver_results` list (line 489): the
excitation energy and the transition symmetry label. -/
structure ExcitationRecord where
  excitation_energy : Rat
  symmetry : String
deriving DecidableEq, Repr

/-- The two named variables published per root (lines 495-496). -/
def rootVariables (w : TdWfn) (i : Nat) (irrep_ES : String) (E_tot E_ex : Rat) :
    List (String × Rat) :=
  [("TD-" ++ w.functional_name ++ " ROOT " ++ toString (i + 1) ++ " TOTAL ENERGY - "
      ++ irrep_ES ++ " SYMMETRY", E_tot),
   ("TD-" ++ w.functional_name ++ " ROOT 0 -> ROOT " ++ toString (i + 1)
      ++ " EXCITATION ENERGY - " ++ irrep_ES ++ " SYMMETRY", E_ex)]

/-- The body of the result loop (lines 485-517) for the `i`-th merged
root: the returned record, the published named variables and the printed
spectroscopic observables. -/
def postRoot {V : Type} (w : TdWfn) (dot : V → V → Rat)
    (ints : PropertyIntegrals V) (i : Nat) (t : Rat × V × V × Nat) :
    ExcitationRecord × List (String × Rat) × SpectroData :=
  let E_ex := t.1
  let R := t.2.1
  let L := t.2.2.1
  let final_sym := t.2.2.2
  let irrep_ES := w.irrep_labels.getD final_sym ""
  let irrep_trans := w.irrep_labels.getD (w.G_gs ^^^ final_sym) ""
  let E_tot := w.energy + E_ex
  (⟨E_ex, irrep_trans⟩, rootVariables w i irrep_ES E_tot E_ex,
    spectroscopicObservables dot ints E_ex R L)

/-- The full output of a successful `tdscf_excitations` call: the
returned record list, the published named variables, and the printed
per-root spectroscopic observables. -/
structure TdOutput where
  records : List ExcitationRecord
  published : List (String × Rat)
  spectra : List SpectroData

/-- Lines 412-416 of the source: the engine constructed from the
reference type, the problem type and the triplet flag. -/
def engineSpecOf (w : TdWfn) (tda : Bool) (triplets : String) : EngineSpec :=
  if w.same_a_b_orbs then
    .restrictedEngine (if tda then .tda else .rpa) (doTriplets triplets)
  else
    .unrestrictedEngine (if tda then .tda else .rpa)

/-- The embedded `tdscf_excitations` (lines 278-526): validate the
request, distribute the states over irreps, construct the engine, run
the per-irrep solves, sort the merged results by energy, and derive the
records, named variables and spectroscopic observables.  Returns the
trace of engine/solver interactions together with the result or the
first error. -/
def tdscf_excitations {V G : Type} (w : TdWfn) (o : SolverOracle V G)
    (dot : V → V → Rat) (ints : PropertyIntegrals V) (states : StatesArg)
    (triplets : String) (tda : Bool) (r_tol : Rat) (max_ss_vec : Int)
    (maxiter : Nat) (guess : String) :
    List TdEvent × Except TdError TdOutput :=
  match tdscfValidate w states triplets guess with
  | some msg => ([], .error (.validation msg))
  | none =>
    let spi := singletsPerIrrep w states
    let do_triplets := doTriplets triplets
    let spec := engineSpecOf w tda triplets
    let run := runIrreps o spec w.irrep_labels tda do_triplets r_tol max_ss_vec
      maxiter spi.enum
    match run.2 with
    | .error e => (run.1, .error (.convergence e))
    | .ok rs =>
      let sorted := sortByEnergy rs
      let triples := sorted.enum.map (fun p => postRoot w dot ints p.1 p.2)
      (run.1, .ok ⟨triples.map (·.1), (triples.map (·.2.1)).flatten,
        triples.map (·.2.2)⟩)

/-! ## CPSCF: data model -/

/-- The sum `f 0 + f 1 + ... + f (n-1)`, written recursively so that it
evaluates by reduction. -/
def sumUnder : Nat → (Nat → Rat) → Rat
  | 0, _ => 0
  | n + 1, f => sumUnder n f + f n

/-- A named rectangular matrix of rationals: the model of a
`psi4.core.Matrix` as used by `cpscf_linear_response`. -/
structure NamedMat where
  name : String
  rows : Nat
  cols : Nat
  entry : Nat → Nat → Rat

instance : Inhabited NamedMat := ⟨⟨"", 0, 0, fun _ _ => 0⟩⟩

/-- The shape of a matrix, as compared at lines 165-171. -/
def NamedMat.shape (m : NamedMat) : Nat × Nat := (m.rows, m.cols)

/-- `Matrix.scale`: in-place scaling by a factor, modelled as a copy with
every entry multiplied by `c` (the name is preserved). -/
def NamedMat.scale (m : NamedMat) (c : Rat) : NamedMat :=
  { m with entry := fun i j => c * m.entry i j }

/-- `core.triplet(A, V, B, True, False, False)` (line 168): the product
`Aᵀ · V · B`, projecting a full AO matrix into the `occ × vir` block. -/
def tripletTFF (A V B : NamedMat) : NamedMat :=
  { name := V.name,
    rows := A.cols,
    cols := B.cols,
    entry := fun i j =>
      sumUnder A.rows (fun p =>
        sumUnder V.cols (fun q => A.entry p i * V.entry p q * B.entry q j)) }

/-- `Matrix.vector_dot` (line 206): the sum of entrywise products over
the shape of the first matrix. -/
def NamedMat.vector_dot (m other : NamedMat) : Rat :=
  sumUnder m.rows (fun i => sumUnder m.cols (fun j => m.entry i j * other.entry i j))

/-- One positional argument of `cpscf_linear_response`: a property
keyword string, a list (or tuple) of raw vectors, or a single raw
vector. -/
inductive CpArg where
  | kw (s : String)
  | vecList (vs : List NamedMat)
  | vec (v : NamedMat)

/-- Selector for the `mints_function` field of the property registry. -/
inductive MintsFn where
  | dip
  | quad
  | tracelessQuad
deriving DecidableEq, Repr

/-- The model of `core.MintsHelper`: the AO integral sets the three
registry entries can request. -/
structure CpMints where
  ao_dipole : List NamedMat
  ao_quadrupole : List NamedMat
  ao_traceless_quadrupole : List NamedMat

/-- Apply a registry `mints_function` to the integral provider. -/
def MintsFn.apply : MintsFn → CpMints → List NamedMat
  | .dip, m => m.ao_dipole
  | .quad, m => m.ao_quadrupole
  | .tracelessQuad, m => m.ao_traceless_quadrupole

/-- One entry of the keyword registry (lines 39-66): display name,
printout labels, integral source and the vector names used for the
response dictionary lookups. -/
structure PropKeywordInfo where
  name : String
  printout_labels : List String
  mints_function : MintsFn
  vector_names : List String
deriving DecidableEq, Repr

/-- The `dipole` registry entry (lines 39-44). -/
def dipoleInfo : PropKeywordInfo :=
  { name := "Dipole polarizabilities",
    printout_labels := ["X", "Y", "Z"],
    mints_function := .dip,
    vector_names := ["AO Mux", "AO Muy", "AO Muz"] }

/-- The `quadrupole` registry entry (lines 46-51). -/
def quadrupoleInfo : PropKeywordInfo :=
  { name := "Quadrupole polarizabilities",
    printout_labels := ["XX", "XY", "XZ", "YY", "YZ", "ZZ"],
    mints_function := .quad,
    vector_names := ["XX", "XY", "XZ", "YY", "YZ", "ZZ"].map
      (fun x => "AO Quadrupole " ++ x) }

/-- The `traceless_quadrupole` registry entry (lines 53-60). -/
def tracelessQuadrupoleInfo : PropKeywordInfo :=
  { name := "Traceless quadrupole polarizabilities",
    printout_labels := ["XX", "XY", "XZ", "YY", "YZ", "ZZ"],
    mints_function := .tracelessQuad,
    vector_names := ["XX", "XY", "XZ", "YY", "YZ", "ZZ"].map
      (fun x => "AO Traceless Quadrupole " ++ x) }

/-- The keyword registry `property_dicts` (lines 62-66). -/
def property_dicts (s : String) : Option PropKeywordInfo :=
  if s = "DIPOLE_POLARIZABILITIES" then some dipoleInfo
  else if s = "QUADRUPOLE_POLARIZABILITIES" then some quadrupoleInfo
  else if s = "TRACELESS_QUADRUPOLE_POLARIZABILITIES" then some tracelessQuadrupoleInfo
  else none

/-- One entry of `complete_dict` (lines 96-128): either a registry
dictionary, or a user-vector dictionary with its `length` tag (`0` marks
a single vector passed without list wrapping), vectors and generated
names. -/
inductive CpDesc where
  | prop (info : PropKeywordInfo)
  | user (length : Nat) (vectors : List NamedMat) (vector_names : List String)

/-- The errors of the embedded `cpscf_linear_response`: a
`ValidationError`, a Python `KeyError` on a dictionary lookup, or a
Python `IndexError` on an out-of-range list index. -/
inductive CpError where
  | validation (msg : String)
  | keyError (key : String)
  | indexError
deriving DecidableEq, Repr

/-- The argument loop of lines 99-128: build `complete_dict`, threading
the `n_user` counter, failing on the first unknown keyword. -/
def buildDescs : List CpArg → Nat → Except CpError (List CpDesc)
  | [], _ => .ok []
  | .kw s :: rest, n_user =>
    match property_dicts s with
    | some info => (buildDescs rest n_user).map (fun ds => .prop info :: ds)
    | none => .error (.validation ("Do not understand " ++ s ++ ". Abort."))
  | .vecList vs :: rest, n_user =>
    (buildDescs rest (n_user + vs.length)).map (fun ds =>
      .user vs.length vs ((List.range vs.length).map (fun i =>
        "User Vector " ++ toString n_user ++ "_" ++ toString i)) :: ds)
  | .vec v :: rest, n_user =>
    (buildDescs rest (n_user + 1)).map (fun ds =>
      .user 0 [v] ["User Vector " ++ toString n_user] :: ds)

/-- The vector-collection loop of lines 135-146: user vectors are taken
with their generated names; keyword vectors are fetched from the
integral provider, scaled by `-2.0`, and recorded under their own
matrix names. -/
def collectPairs (mints : CpMints) : List CpDesc → List (String × NamedMat)
  | [] => []
  | .user _ vs ns :: rest => ns.zip vs ++ collectPairs mints rest
  | .prop info :: rest =>
    (info.mints_function.apply mints).map
      (fun tmp => ((tmp.scale (-2)).name, tmp.scale (-2)))
      ++ collectPairs mints rest

/-- The shape dispatch of lines 163-173 for one vector: a `(nbf, nbf)`
matrix is projected through `Cocc^T · V · Cvir`, a `(ndocc, nvirt)`
matrix passes through unchanged, and any other shape is a validation
error naming the vector. -/
def transformVec (nbf ndocc nvirt : Nat) (c_occ c_vir : NamedMat)
    (nm : String) (v : NamedMat) : Except CpError NamedMat :=
  if v.shape = (nbf, nbf) then
    .ok (tripletTFF c_occ v c_vir)
  else if v.shape = (ndocc, nvirt) then
    .ok v
  else
    .error (.validation ("ERROR: \"" ++ nm ++ "\" has an unrecognized shape. "
      ++ "Must be either (" ++ toString nbf ++ ", " ++ toString nbf ++ ") or ("
      ++ toString ndocc ++ ", " ++ toString nvirt ++ ")"))

/-- The transformation loop of lines 163-173 over the whole batch,
stopping at the first offending vector. -/
def transformAll (nbf ndocc nvirt : Nat) (c_occ c_vir : NamedMat) :
    List (String × NamedMat) → Except CpError (List NamedMat)
  | [] => .ok []
  | (nm, v) :: rest => do
    let t ← transformVec nbf ndocc nvirt c_occ c_vir nm v
    let ts ← transformAll nbf ndocc nvirt c_occ c_vir rest
    pure (t :: ts)

/-- A Python dictionary built as `{k: v for k, v in zip(names, vals)}`
and indexed with `d[key]`: the value of the last pair with the given
key wins; a missing key is a `KeyError`. -/
def dictGet (pairs : List (String × NamedMat)) (key : String) :
    Except CpError NamedMat :=
  match pairs with
  | [] => .error (.keyError key)
  | p :: rest =>
    match dictGet rest key with
    | .ok v => .ok v
    | .error _ => if p.1 = key then .ok p.2 else .error (.keyError key)

/-- One entry of the returned `output` list (lines 184-212): a `k × k`
response tensor for a registry descriptor, a single unwrapped response
for a bare user vector, or a list of responses for a user vector list. -/
inductive CpOut where
  | tensor (entries : List (List Rat))
  | single (m : NamedMat)
  | listOut (ms : List NamedMat)

/-- The output loop body of lines 186-208 for one descriptor, reading
the `vectors` and `responses` dictionaries. -/
def assembleOne (vecDict respDict : List (String × NamedMat)) :
    CpDesc → Except CpError CpOut
  | .user len _ ns =>
    if len = 0 then
      match ns.head? with
      | none => .error .indexError
      | some n0 => (dictGet respDict n0).map .single
    else
      (ns.mapM (dictGet respDict)).map .listOut
  | .prop info => do
    let names := info.vector_names
    let rows ← names.mapM (fun i_name => do
      names.mapM (fun j_name => do
        let vi ← dictGet vecDict i_name
        let rj ← dictGet respDict j_name
        pure (-1 * vi.vector_dot rj)))
    pure (.tensor rows)

/-- The output loop of lines 184-212 over all descriptors. -/
def assembleAll (vecDict respDict : List (String × NamedMat))
    (descs : List CpDesc) : Except CpError (List CpOut) :=
  descs.mapM (assembleOne vecDict respDict)

/-- The wavefunction data consulted by `cpscf_linear_response`: orbital
counts, the occupied and virtual MO coefficient blocks, and the external
`cphf_solve` method (arguments: vectors, `conv_tol`, `max_iter`,
`print_lvl`), assumed to return one response per input vector. -/
structure CpWfn where
  nmo : Nat
  nalpha : Nat
  Ca_occ : NamedMat
  Ca_vir : NamedMat
  cphf_solve : List NamedMat → Rat → Nat → Nat → List NamedMat

/-- Lines 148-150 of the source: reject an empty vector batch. -/
def ensureVectors (pairs : List (String × NamedMat)) : Except CpError Unit :=
  if pairs.length = 0 then
    throw (.validation "I have no vectors to work with. Aborting.")
  else
    pure ()

/-- The embedded `cpscf_linear_response` (lines 69-212): parse the
arguments, collect and prescale the perturbation vectors, reject an
empty batch, project to the `occ × vir` block, run the external CPHF
solve and assemble the per-descriptor output. -/
def cpscf_linear_response (wfn : CpWfn) (mints : CpMints) (args : List CpArg)
    (conv_tol : Rat) (max_iter print_lvl : Nat) : Except CpError (List CpOut) := do
  let descs ← buildDescs args 0
  let pairs := collectPairs mints descs
  let _ ← ensureVectors pairs
  let nbf := wfn.nmo
  let ndocc := wfn.nalpha
  let nvirt := nbf - ndocc
  let vector_names := pairs.map (fun p => p.1)
  let tvecs ← transformAll nbf ndocc nvirt wfn.Ca_occ wfn.Ca_vir pairs
  let responses := wfn.cphf_solve tvecs conv_tol max_iter print_lvl
  let vecDict := vector_names.zip tvecs
  let respDict := vector_names.zip responses
  assembleAll vecDict respDict descs

/-! ## Helper lemmas on the distribution loop -/

theorem addOneToFirst_length (r : Nat) (l : List Int) :
    (addOneToFirst r l).length = l.length := by
  induction l generalizing r with
  | nil => cases r <;> rfl
  | cons x xs ih =>
    cases r with
    | zero => rfl
    | succ r => simpa [addOneToFirst] using ih r

theorem addOneToFirst_sum (r : Nat) (l : List Int) (h : r ≤ l.length) :
    (addOneToFirst r l).sum = l.sum + r := by
  induction l generalizing r with
  | nil =>
    have : r = 0 := by simpa using h
    subst this
    simp [addOneToFirst]
  | cons x xs ih =>
    cases r with
    | zero => simp [addOneToFirst]
    | succ r =>
      simp only [addOneToFirst, List.sum_cons]
      have := ih r (by simpa using Nat.succ_le_succ_iff.mp (by simpa using h))
      rw [this]
      push_cast
      ring

theorem addOneToFirst_getD (r : Nat) (l : List Int) (i : Nat) (h : i < l.length) :
    (addOneToFirst r l).getD i 0 = l.getD i 0 + if i < r then 1 else 0 := by
  induction l generalizing r i with
  | nil => simp at h
  | cons x xs ih =>
    cases r with
    | zero => simp [addOneToFirst]
    | succ r =>
      cases i with
      | zero => simp [addOneToFirst]
      | succ i =>
        simp only [addOneToFirst, List.getD_cons_succ]
        rw [ih r i (by simpa using h)]
        simp [Nat.succ_lt_succ_iff]

theorem addOneToFirst_mem (r : Nat) (q a : Int) (n : Nat)
    (h : a ∈ addOneToFirst r (List.replicate n q)) : a = q ∨ a = q + 1 := by
  induction n generalizing r with
  | zero => cases r <;> simp [addOneToFirst] at h
  | succ n ih =>
    cases r with
    | zero =>
      left
      simpa using List.eq_of_mem_replicate h
    | succ r =>
      simp only [List.replicate, addOneToFirst, List.mem_cons] at h
      rcases h with h | h
      · right
        omega
      · exact ih r h

/-- A concrete wavefunction used by the witnesses: a D2h-like system with
8 irreps and a restricted Hartree-Fock reference. -/
def wfnD2h : TdWfn :=
  { nirrep := 8,
    irrep_labels := ["Ag", "B1g", "B2g", "B3g", "Au", "B1u", "B2u", "B3u"],
    same_a_b_orbs := true,
    needs_xc := false,
    is_gga := false,
    is_meta := false,
    functional_name := "HF",
    energy := -76,
    G_gs := 0 }

/-- Sanity check of the distribution on the example of the spec:
`total = 10` over `8` irreps gives `[2, 2, 1, 1, 1, 1, 1, 1]`. -/
theorem singletsPerIrrep_example :
    singletsPerIrrep wfnD2h (.int 10) = [2, 2, 1, 1, 1, 1, 1, 1] := by
  decide

/-- C1. For a scalar `total ≥ 0` and `n_irrep ≥ 1`, `tdscf_excitations`
distributes `floor(total / n_irrep)` states to every irrep and adds one
extra unit to each of the first `total mod n_irrep` irreps: the per-irrep
list has one entry per irrep, sums to `total`, entry `i` is the quotient
plus one exactly when `i < total mod n_irrep` (so the max-min difference
is at most 1 and exactly the first irreps receive the extra unit); a list
argument is taken as the per-irrep counts directly. -/
theorem states_distribution_correct (w : TdWfn) (total : Int)
    (htot : 0 ≤ total) (hnir : 1 ≤ w.nirrep) :
    (singletsPerIrrep w (.int total)).length = w.nirrep ∧
    (singletsPerIrrep w (.int total)).sum = total ∧
    (∀ i, i < w.nirrep →
      (singletsPerIrrep w (.int total)).getD i 0 =
        total.fdiv w.nirrep + if i < (total.fmod w.nirrep).toNat then 1 else 0) ∧
    (∀ a ∈ singletsPerIrrep w (.int total),
      ∀ b ∈ singletsPerIrrep w (.int total), a - b ≤ 1) ∧
    (∀ xs : List Int, singletsPerIrrep w (.list xs) = xs) := by
  have hpos : (0 : Int) < (w.nirrep : Int) := by exact_mod_cast hnir
  have hmodnn : 0 ≤ total.fmod w.nirrep := Int.fmod_nonneg' total hpos
  have hmodlt : total.fmod (w.nirrep : Int) < (w.nirrep : Int) :=
    Int.fmod_lt_of_pos total hpos
  have hcast : ((total.fmod w.nirrep).toNat : Int) = total.fmod w.nirrep :=
    Int.toNat_of_nonneg hmodnn
  have hrle : (total.fmod w.nirrep).toNat ≤ w.nirrep := by omega
  refine ⟨?_, ?_, ?_, ?_, fun xs => rfl⟩
  · simp [singletsPerIrrep, addOneToFirst_length]
  · rw [singletsPerIrrep, addOneToFirst_sum _ _ (by simpa using hrle)]
    have hrep : (List.replicate w.nirrep (total.fdiv w.nirrep)).sum =
        (w.nirrep : Int) * total.fdiv w.nirrep := by
      simp [List.sum_replicate, nsmul_eq_mul]
    rw [hrep, hcast]
    have := Int.fmod_add_fdiv total w.nirrep
    linarith
  · intro i hi
    rw [singletsPerIrrep, addOneToFirst_getD _ _ _ (by simpa using hi)]
    have : (List.replicate w.nirrep (total.fdiv w.nirrep)).getD i 0 =
        total.fdiv w.nirrep := by
      simp [List.getD, List.getElem?_replicate, hi]
    rw [this]
  · intro a ha b hb
    rw [singletsPerIrrep] at ha hb
    rcases addOneToFirst_mem _ _ _ _ ha with h1 | h1 <;>
      rcases addOneToFirst_mem _ _ _ _ hb with h2 | h2 <;> omega

/-- Witness for C1: the distribution theorem applied to `total = 10`
over the 8 irreps of `wfnD2h`. -/
theorem states_distribution_correct_witness :
    0 ≤ (10 : Int) ∧ 1 ≤ wfnD2h.nirrep ∧
    ((singletsPerIrrep wfnD2h (.int 10)).length = wfnD2h.nirrep ∧
     (singletsPerIrrep wfnD2h (.int 10)).sum = 10 ∧
     (∀ i, i < wfnD2h.nirrep →
       (singletsPerIrrep wfnD2h (.int 10)).getD i 0 =
         (10 : Int).fdiv wfnD2h.nirrep +
           if i < ((10 : Int).fmod wfnD2h.nirrep).toNat then 1 else 0) ∧
     (∀ a ∈ singletsPerIrrep wfnD2h (.int 10),
       ∀ b ∈ singletsPerIrrep wfnD2h (.int 10), a - b ≤ 1) ∧
     (∀ xs : List Int, singletsPerIrrep wfnD2h (.list xs) = xs)) :=
  ⟨by decide, by decide, states_distribution_correct wfnD2h 10 (by decide) (by decide)⟩

/-! ## C4: request validation -/

theorem validateRest_characterization (w : TdWfn) (triplets guess : String) :
    ((tdscfValidateRest w triplets guess).isSome = true ↔
      (doTriplets triplets = true ∧ w.same_a_b_orbs = false) ∨
      (doTriplets triplets = true ∧ w.same_a_b_orbs = true ∧ w.needs_xc = true) ∨
      (w.same_a_b_orbs = false ∧ (w.is_gga = true ∨ w.is_meta = true)) ∨
      strLower guess ≠ "denominators") ∧
    (doTriplets triplets = true → w.same_a_b_orbs = false →
      tdscfValidateRest w triplets guess =
        some "Cannot compute triplets with an unrestricted reference") ∧
    (doTriplets triplets = true → w.same_a_b_orbs = true → w.needs_xc = true →
      tdscfValidateRest w triplets guess =
        some "Restricted Vx kernel only spin-adapted for singlets") ∧
    (¬(doTriplets triplets = true ∧ w.same_a_b_orbs = false) →
      ¬(doTriplets triplets = true ∧ w.same_a_b_orbs = true ∧ w.needs_xc = true) →
      w.same_a_b_orbs = false → (w.is_gga = true ∨ w.is_meta = true) →
      tdscfValidateRest w triplets guess =
        some "Unrestricted Kohn-Sham Vx kernel currently limited to SVWN functional") ∧
    (¬(doTriplets triplets = true ∧ w.same_a_b_orbs = false) →
      ¬(doTriplets triplets = true ∧ w.same_a_b_orbs = true ∧ w.needs_xc = true) →
      ¬(w.same_a_b_orbs = false ∧ (w.is_gga = true ∨ w.is_meta = true)) →
      strLower guess ≠ "denominators" →
      tdscfValidateRest w triplets guess =
        some ("Guess type " ++ guess ++ " is not valid")) := by
  unfold tdscfValidateRest
  rcases hdo : doTriplets triplets <;>
    rcases hab : w.same_a_b_orbs <;>
      rcases hxc : w.needs_xc <;>
        rcases hgga : w.is_gga <;>
          rcases hmeta : w.is_meta <;>
            by_cases hg : strLower guess = "denominators" <;>
              simp_all

/-- C4 (counterexample). The claim that `tdscf_excitations` raises a
validation error exactly when one of the listed conditions holds — with
the last condition read literally as `guess ≠ "denominators"` — is false:
for `guess = "Denominators"` the source lowercases the guess name
(`guess.lower() != "denominators"`) and accepts the request, while the
claimed condition list flags it. -/
theorem validation_checks_counterexample :
    ¬ ((tdscfValidate wfnD2h (.int 1) "none" "Denominators").isSome = true ↔
      (StatesArg.int 1 = StatesArg.other ∨
       (∃ l, StatesArg.int 1 = StatesArg.list l ∧ l.length ≠ wfnD2h.nirrep) ∨
       (doTriplets "none" = true ∧ wfnD2h.same_a_b_orbs = false) ∨
       (doTriplets "none" = true ∧ wfnD2h.same_a_b_orbs = true ∧
         wfnD2h.needs_xc = true) ∨
       (wfnD2h.same_a_b_orbs = false ∧ (wfnD2h.is_gga = true ∨ wfnD2h.is_meta = true)) ∨
       "Denominators" ≠ "denominators")) := by
  intro h
  have hne : "Denominators" ≠ "denominators" := by decide
  have : (tdscfValidate wfnD2h (.int 1) "none" "Denominators").isSome = true :=
    h.mpr (Or.inr (Or.inr (Or.inr (Or.inr (Or.inr hne)))))
  have hnone : tdscfValidate wfnD2h (.int 1) "none" "Denominators" = none := by decide
  rw [hnone] at this
  simp at this

/-- C4 (amended). `tdscf_excitations` raises a validation error, before
any solver work, exactly when one of the following holds, checked in
this order: `states` is neither an integer nor a list; `states` is a
list whose length differs from `n_irrep`; triplets are requested
(`triplets != "none"`) with an unrestricted reference; triplets are
requested with a restricted reference whose exchange-correlation kernel
needs spin adaptation; the reference is unrestricted and the functional
is GGA or meta; the guess policy name differs, case-insensitively, from
"denominators" (the source compares `guess.lower()`). -/
theorem validation_checks_amended (w : TdWfn) (states : StatesArg)
    (triplets guess : String) :
    ((tdscfValidate w states triplets guess).isSome = true ↔
      states = StatesArg.other ∨
      (∃ l, states = StatesArg.list l ∧ l.length ≠ w.nirrep) ∨
      (doTriplets triplets = true ∧ w.same_a_b_orbs = false) ∨
      (doTriplets triplets = true ∧ w.same_a_b_orbs = true ∧ w.needs_xc = true) ∨
      (w.same_a_b_orbs = false ∧ (w.is_gga = true ∨ w.is_meta = true)) ∨
      strLower guess ≠ "denominators") ∧
    (states = StatesArg.other →
      tdscfValidate w states triplets guess =
        some "Number of states must be either an integer or a list of integers") ∧
    (∀ l, states = StatesArg.list l → l.length ≠ w.nirrep →
      tdscfValidate w states triplets guess =
        some ("States requested (" ++ toString l ++ ") do not match with number of irreps ("
          ++ toString w.nirrep ++ ")")) ∧
    (states ≠ StatesArg.other → (∀ l, states = StatesArg.list l → l.length = w.nirrep) →
      tdscfValidate w states triplets guess = tdscfValidateRest w triplets guess) := by
  have hrest := validateRest_characterization w triplets guess
  rcases states with n | l | _
  · refine ⟨?_, by simp, by simp, fun _ _ => rfl⟩
    simp only [tdscfValidate]
    rw [hrest.1]
    simp
  · by_cases hl : l.length = w.nirrep
    · refine ⟨?_, by simp, ?_, fun _ _ => ?_⟩
      · simp only [tdscfValidate, hl]
        rw [if_neg (by simp), hrest.1]
        simp [hl]
      · intro l' hl' hne
        cases hl'
        exact absurd hl hne
      · simp [tdscfValidate, hl]
    · refine ⟨?_, by simp, ?_, fun _ hall => ?_⟩
      · simp only [tdscfValidate]
        rw [if_pos (by simpa using hl)]
        simp only [Option.isSome_some, true_iff]
        exact Or.inr (Or.inl ⟨l, rfl, hl⟩)
      · intro l' hl' _
        cases hl'
        simp [tdscfValidate, if_pos (by simpa using hl)]
      · exact absurd (hall l rfl) hl
  · refine ⟨?_, fun _ => rfl, by simp, by simp⟩
    simp [tdscfValidate]

/-- Witness for the amended C4 at a concrete valid request: the
characterization applied to `wfnD2h`, a scalar state count and the
default guess policy. -/
theorem validation_checks_amended_witness :
    ((tdscfValidate wfnD2h (.int 2) "none" "denominators").isSome = true ↔
      StatesArg.int 2 = StatesArg.other ∨
      (∃ l, StatesArg.int 2 = StatesArg.list l ∧ l.length ≠ wfnD2h.nirrep) ∨
      (doTriplets "none" = true ∧ wfnD2h.same_a_b_orbs = false) ∨
      (doTriplets "none" = true ∧ wfnD2h.same_a_b_orbs = true ∧
        wfnD2h.needs_xc = true) ∨
      (wfnD2h.same_a_b_orbs = false ∧ (wfnD2h.is_gga = true ∨ wfnD2h.is_meta = true)) ∨
      strLower "denominators" ≠ "denominators") ∧
    (StatesArg.int 2 = StatesArg.other →
      tdscfValidate wfnD2h (.int 2) "none" "denominators" =
        some "Number of states must be either an integer or a list of integers") ∧
    (∀ l, StatesArg.int 2 = StatesArg.list l → l.length ≠ wfnD2h.nirrep →
      tdscfValidate wfnD2h (.int 2) "none" "denominators" =
        some ("States requested (" ++ toString l ++ ") do not match with number of irreps ("
          ++ toString wfnD2h.nirrep ++ ")")) ∧
    (StatesArg.int 2 ≠ StatesArg.other →
      (∀ l, StatesArg.int 2 = StatesArg.list l → l.length = wfnD2h.nirrep) →
      tdscfValidate wfnD2h (.int 2) "none" "denominators" =
        tdscfValidateRest wfnD2h "none" "denominators") :=
  validation_checks_amended wfnD2h (.int 2) "none" "denominators"

/-! ## Helper lemmas on the per-irrep loop -/

/-- The solver invocation performed for one active block `(state_sym,
nstates)` (lines 422-435): guess generation of `2 * nstates` trial
vectors, subspace cap `max_ss_vec // nstates`, and the solver selected
by `tda`. -/
def blockSolve {V G : Type} (o : SolverOracle V G) (spec : EngineSpec) (tda : Bool)
    (r_tol : Rat) (max_ss_vec : Int) (maxiter : Nat) (p : Nat × Int) :
    SolveResult V :=
  o.solve (if tda then .davidson else .hamiltonian) spec p.1 p.2 r_tol
    (max_ss_vec.fdiv p.2) maxiter (o.generate_guess spec p.1 (p.2 * 2))

/-- Whether the final convergence record of a block's solve reports
not-done. -/
def blockFails {V G : Type} (o : SolverOracle V G) (spec : EngineSpec) (tda : Bool)
    (r_tol : Rat) (max_ss_vec : Int) (maxiter : Nat) (p : Nat × Int) : Bool :=
  !finalDone (blockSolve o spec tda r_tol max_ss_vec maxiter p)

/-- The engine/solver trace of one block of the loop. -/
def blockEvents (tda : Bool) (r_tol : Rat) (max_ss_vec : Int) (maxiter : Nat)
    (p : Nat × Int) : List TdEvent :=
  [TdEvent.resetForStateSymm p.1, TdEvent.generateGuess p.1 (p.2 * 2),
   TdEvent.solveCall (if tda then .davidson else .hamiltonian) p.1 p.2 r_tol
     (max_ss_vec.fdiv p.2) maxiter]

/-- The result tuples contributed by one successfully converged block,
eigenvectors rescaled by `sqrt 2`. -/
def blockResults {V G : Type} (o : SolverOracle V G) (spec : EngineSpec) (tda : Bool)
    (r_tol : Rat) (max_ss_vec : Int) (maxiter : Nat) (p : Nat × Int) :
    List (Rat × V × V × Nat) :=
  let ret := blockSolve o spec tda r_tol max_ss_vec maxiter p
  (ret.eigvals.zip (ret.eigvecs.map (scaleBoth o spec))).map
    (fun q => (q.1, q.2.1, q.2.2, p.1))

theorem runIrreps_cons_zero {V G : Type} (o : SolverOracle V G) (spec : EngineSpec)
    (labels : List String) (tda do_triplets : Bool) (r_tol : Rat) (max_ss_vec : Int)
    (maxiter : Nat) (k : Nat) (n : Int) (rest : List (Nat × Int)) (h : n = 0) :
    runIrreps o spec labels tda do_triplets r_tol max_ss_vec maxiter ((k, n) :: rest) =
      runIrreps o spec labels tda do_triplets r_tol max_ss_vec maxiter rest := by
  simp [runIrreps, h]

theorem runIrreps_cons_fail {V G : Type} (o : SolverOracle V G) (spec : EngineSpec)
    (labels : List String) (tda do_triplets : Bool) (r_tol : Rat) (max_ss_vec : Int)
    (maxiter : Nat) (k : Nat) (n : Int) (rest : List (Nat × Int)) (h : n ≠ 0)
    (hf : blockFails o spec tda r_tol max_ss_vec maxiter (k, n) = true) :
    runIrreps o spec labels tda do_triplets r_tol max_ss_vec maxiter ((k, n) :: rest) =
      (blockEvents tda r_tol max_ss_vec maxiter (k, n),
       .error ⟨maxiter, (if do_triplets then "triplet" else "singlet")
         ++ " excitations in irrep " ++ labels.getD k ""⟩) := by
  have hff : finalDone (blockSolve o spec tda r_tol max_ss_vec maxiter (k, n)) = false := by
    simpa [blockFails] using hf
  simp only [runIrreps, beq_iff_eq, if_neg h]
  simp only [blockSolve] at hff
  rw [if_pos hff]
  rfl

theorem runIrreps_cons_ok {V G : Type} (o : SolverOracle V G) (spec : EngineSpec)
    (labels : List String) (tda do_triplets : Bool) (r_tol : Rat) (max_ss_vec : Int)
    (maxiter : Nat) (k : Nat) (n : Int) (rest : List (Nat × Int)) (h : n ≠ 0)
    (hd : blockFails o spec tda r_tol max_ss_vec maxiter (k, n) = false) :
    runIrreps o spec labels tda do_triplets r_tol max_ss_vec maxiter ((k, n) :: rest) =
      (blockEvents tda r_tol max_ss_vec maxiter (k, n) ++
        (runIrreps o spec labels tda do_triplets r_tol max_ss_vec maxiter rest).1,
       (runIrreps o spec labels tda do_triplets r_tol max_ss_vec maxiter rest).2.map
         (fun rs => blockResults o spec tda r_tol max_ss_vec maxiter (k, n) ++ rs)) := by
  have hdd : finalDone (blockSolve o spec tda r_tol max_ss_vec maxiter (k, n)) = true := by
    simpa [blockFails] using hd
  simp only [runIrreps, beq_iff_eq, if_neg h]
  simp only [blockSolve] at hdd
  rw [if_neg (by simp [hdd])]
  rfl

theorem runIrreps_error_of_find {V G : Type} (o : SolverOracle V G) (spec : EngineSpec)
    (labels : List String) (tda do_triplets : Bool) (r_tol : Rat) (max_ss_vec : Int)
    (maxiter : Nat) :
    ∀ (blocks : List (Nat × Int)) (k : Nat) (n : Int),
    (blocks.filter (fun p => !(p.2 == 0))).find?
        (blockFails o spec tda r_tol max_ss_vec maxiter) = some (k, n) →
    (runIrreps o spec labels tda do_triplets r_tol max_ss_vec maxiter blocks).2 =
      .error ⟨maxiter, (if do_triplets then "triplet" else "singlet")
        ++ " excitations in irrep " ++ labels.getD k ""⟩ := by
  intro blocks
  induction blocks with
  | nil => intro k n h; simp at h
  | cons hd rest ih =>
    intro k n h
    obtain ⟨k0, n0⟩ := hd
    by_cases h0 : n0 = 0
    · rw [runIrreps_cons_zero o spec labels tda do_triplets r_tol max_ss_vec maxiter
        k0 n0 rest h0]
      apply ih
      simpa [List.filter_cons, h0] using h
    · rw [List.filter_cons, if_pos (by simpa using h0)] at h
      by_cases hf : blockFails o spec tda r_tol max_ss_vec maxiter (k0, n0) = true
      · rw [List.find?_cons_of_pos _ hf] at h
        obtain ⟨hk, hn⟩ : k0 = k ∧ n0 = n := by
          constructor <;> injection h with h' <;> cases h' <;> rfl
        subst hk
        rw [runIrreps_cons_fail o spec labels tda do_triplets r_tol max_ss_vec maxiter
          k0 n0 rest h0 hf]
      · rw [List.find?_cons_of_neg _ (by simpa using hf)] at h
        rw [runIrreps_cons_ok o spec labels tda do_triplets r_tol max_ss_vec maxiter
          k0 n0 rest h0 (by simpa using hf)]
        rw [ih k n h]
        rfl

theorem runIrreps_allDone {V G : Type} (o : SolverOracle V G) (spec : EngineSpec)
    (labels : List String) (tda do_triplets : Bool) (r_tol : Rat) (max_ss_vec : Int)
    (maxiter : Nat) :
    ∀ blocks : List (Nat × Int),
    (∀ p ∈ blocks, p.2 ≠ 0 →
      blockFails o spec tda r_tol max_ss_vec maxiter p = false) →
    runIrreps o spec labels tda do_triplets r_tol max_ss_vec maxiter blocks =
      (blocks.flatMap (fun p => if p.2 = 0 then [] else
         blockEvents tda r_tol max_ss_vec maxiter p),
       .ok (blocks.flatMap (fun p => if p.2 = 0 then [] else
         blockResults o spec tda r_tol max_ss_vec maxiter p))) := by
  intro blocks
  induction blocks with
  | nil => intro _; rfl
  | cons hd rest ih =>
    intro hall
    obtain ⟨k0, n0⟩ := hd
    have hrest : ∀ p ∈ rest, p.2 ≠ 0 →
        blockFails o spec tda r_tol max_ss_vec maxiter p = false :=
      fun p hp => hall p (List.mem_cons_of_mem _ hp)
    by_cases h0 : n0 = 0
    · rw [runIrreps_cons_zero o spec labels tda do_triplets r_tol max_ss_vec maxiter
        k0 n0 rest h0, ih hrest]
      simp [h0]
    · have hok := hall (k0, n0) (List.mem_cons_self _ _) h0
      rw [runIrreps_cons_ok o spec labels tda do_triplets r_tol max_ss_vec maxiter
        k0 n0 rest h0 hok, ih hrest]
      simp [h0, Except.map]

/-! ## C3: convergence failure aborts the whole request -/

/-- C3. If the final convergence record of any active symmetry/spin
block reports not-done, `tdscf_excitations` raises a
`TDSCFConvergenceError` naming the spin channel and the irrep (the first
failing block in processing order), and the call returns an error — no
excitation records from any block, converged or not, and no published
per-root named variables. -/
theorem convergence_failure_aborts {V G : Type} (w : TdWfn) (o : SolverOracle V G)
    (dot : V → V → Rat) (ints : PropertyIntegrals V) (states : StatesArg)
    (triplets : String) (tda : Bool) (r_tol : Rat) (max_ss_vec : Int)
    (maxiter : Nat) (guess : String)
    (hv : tdscfValidate w states triplets guess = none)
    (hex : ∃ p ∈ ((singletsPerIrrep w states).enum).filter (fun p => !(p.2 == 0)),
      blockFails o (engineSpecOf w tda triplets) tda r_tol max_ss_vec maxiter p = true) :
    ∃ k n,
      (((singletsPerIrrep w states).enum).filter (fun p => !(p.2 == 0))).find?
          (blockFails o (engineSpecOf w tda triplets) tda r_tol max_ss_vec maxiter)
        = some (k, n) ∧
      (tdscf_excitations w o dot ints states triplets tda r_tol max_ss_vec
          maxiter guess).2 =
        .error (.convergence ⟨maxiter,
          (if doTriplets triplets then "triplet" else "singlet")
            ++ " excitations in irrep " ++ w.irrep_labels.getD k ""⟩) := by
  have hsome : ((((singletsPerIrrep w states).enum).filter (fun p => !(p.2 == 0))).find?
      (blockFails o (engineSpecOf w tda triplets) tda r_tol max_ss_vec maxiter)).isSome := by
    rw [List.find?_isSome]
    exact hex
  obtain ⟨⟨k, n⟩, hfind⟩ := Option.isSome_iff_exists.mp hsome
  refine ⟨k, n, hfind, ?_⟩
  have herr := runIrreps_error_of_find o (engineSpecOf w tda triplets) w.irrep_labels
    tda (doTriplets triplets) r_tol max_ss_vec maxiter
    ((singletsPerIrrep w states).enum) k n hfind
  simp only [tdscf_excitations, hv]
  rcases hrun : runIrreps o (engineSpecOf w tda triplets) w.irrep_labels tda
      (doTriplets triplets) r_tol max_ss_vec maxiter ((singletsPerIrrep w states).enum)
    with ⟨evts, res⟩
  rw [hrun] at herr
  simp only at herr
  subst herr
  rfl

/-- A concrete oracle whose solver always reports a final not-done
convergence record. -/
def oracleFail : SolverOracle Rat Unit :=
  { generate_guess := fun _ _ _ => (),
    solve := fun _ _ _ _ _ _ _ _ => { eigvals := [], eigvecs := [], stats := [⟨false⟩] },
    vector_scale := fun _ _ v => v }

/-- Empty property integrals for the witnesses. -/
def intsNone : PropertyIntegrals Rat := ⟨[], [], []⟩

/-- Witness for C3: a valid single-root request on `wfnD2h` whose only
active block fails to converge; the call errors with the singlet/irrep
message and returns no records. -/
theorem convergence_failure_aborts_witness :
    tdscfValidate wfnD2h (.int 1) "none" "denominators" = none ∧
    (∃ p ∈ ((singletsPerIrrep wfnD2h (.int 1)).enum).filter (fun p => !(p.2 == 0)),
      blockFails oracleFail (engineSpecOf wfnD2h false "none") false 1 50 60 p = true) ∧
    (∃ k n,
      (((singletsPerIrrep wfnD2h (.int 1)).enum).filter (fun p => !(p.2 == 0))).find?
          (blockFails oracleFail (engineSpecOf wfnD2h false "none") false 1 50 60)
        = some (k, n) ∧
      (tdscf_excitations wfnD2h oracleFail (fun a b => a * b) intsNone (.int 1)
          "none" false 1 50 60 "denominators").2 =
        .error (.convergence ⟨60,
          (if doTriplets "none" then "triplet" else "singlet")
            ++ " excitations in irrep " ++ wfnD2h.irrep_labels.getD k ""⟩)) :=
  ⟨by decide, by decide,
    convergence_failure_aborts wfnD2h oracleFail (fun a b => a * b) intsNone (.int 1)
      "none" false 1 50 60 "denominators" (by decide) (by decide)⟩

/-! ## C8: per-irrep solver protocol -/

theorem tdscf_trace_eq_runIrreps {V G : Type} (w : TdWfn) (o : SolverOracle V G)
    (dot : V → V → Rat) (ints : PropertyIntegrals V) (states : StatesArg)
    (triplets : String) (tda : Bool) (r_tol : Rat) (max_ss_vec : Int)
    (maxiter : Nat) (guess : String)
    (hv : tdscfValidate w states triplets guess = none) :
    (tdscf_excitations w o dot ints states triplets tda r_tol max_ss_vec
        maxiter guess).1 =
      (runIrreps o (engineSpecOf w tda triplets) w.irrep_labels tda
        (doTriplets triplets) r_tol max_ss_vec maxiter
        ((singletsPerIrrep w states).enum)).1 := by
  simp only [tdscf_excitations, hv]
  rcases hrun : runIrreps o (engineSpecOf w tda triplets) w.irrep_labels tda
      (doTriplets triplets) r_tol max_ss_vec maxiter
      ((singletsPerIrrep w states).enum) with ⟨evts, res⟩
  cases res <;> rfl

/-- C8. For every irrep whose requested count `n` is non-zero (zero
counts are skipped entirely), the loop of `tdscf_excitations` resets the
engine's symmetry context, requests exactly `2 * n` trial vectors, uses
the per-root subspace cap `max_ss_vec // n`, and invokes the Davidson
solver when `tda` and the Hamiltonian solver otherwise; on success every
returned eigenpair has both its right and left vector rescaled by
`sqrt 2` through `engine.vector_scale`. -/
theorem per_irrep_solver_protocol {V G : Type} (w : TdWfn) (o : SolverOracle V G)
    (dot : V → V → Rat) (ints : PropertyIntegrals V) (states : StatesArg)
    (triplets : String) (tda : Bool) (r_tol : Rat) (max_ss_vec : Int)
    (maxiter : Nat) (guess : String)
    (hv : tdscfValidate w states triplets guess = none)
    (hall : ∀ p ∈ (singletsPerIrrep w states).enum, p.2 ≠ 0 →
      blockFails o (engineSpecOf w tda triplets) tda r_tol max_ss_vec maxiter p = false) :
    (tdscf_excitations w o dot ints states triplets tda r_tol max_ss_vec
        maxiter guess).1 =
      (singletsPerIrrep w states).enum.flatMap (fun p =>
        if p.2 = 0 then [] else
          [TdEvent.resetForStateSymm p.1,
           TdEvent.generateGuess p.1 (p.2 * 2),
           TdEvent.solveCall (if tda then .davidson else .hamiltonian) p.1 p.2 r_tol
             (max_ss_vec.fdiv p.2) maxiter]) ∧
    runIrreps o (engineSpecOf w tda triplets) w.irrep_labels tda (doTriplets triplets)
        r_tol max_ss_vec maxiter ((singletsPerIrrep w states).enum) =
      ((singletsPerIrrep w states).enum.flatMap (fun p =>
        if p.2 = 0 then [] else
          [TdEvent.resetForStateSymm p.1,
           TdEvent.generateGuess p.1 (p.2 * 2),
           TdEvent.solveCall (if tda then .davidson else .hamiltonian) p.1 p.2 r_tol
             (max_ss_vec.fdiv p.2) maxiter]),
       .ok ((singletsPerIrrep w states).enum.flatMap (fun p =>
         if p.2 = 0 then [] else
           ((o.solve (if tda then .davidson else .hamiltonian)
               (engineSpecOf w tda triplets) p.1 p.2 r_tol (max_ss_vec.fdiv p.2)
               maxiter (o.generate_guess (engineSpecOf w tda triplets) p.1
                 (p.2 * 2))).eigvals.zip
             ((o.solve (if tda then .davidson else .hamiltonian)
               (engineSpecOf w tda triplets) p.1 p.2 r_tol (max_ss_vec.fdiv p.2)
               maxiter (o.generate_guess (engineSpecOf w tda triplets) p.1
                 (p.2 * 2))).eigvecs.map (fun RL =>
               (o.vector_scale (engineSpecOf w tda triplets) Q2.sqrt2 RL.1,
                o.vector_scale (engineSpecOf w tda triplets) Q2.sqrt2 RL.2)))).map
             (fun q => (q.1, q.2.1, q.2.2, p.1))))) := by
  have hrun := runIrreps_allDone o (engineSpecOf w tda triplets) w.irrep_labels tda
    (doTriplets triplets) r_tol max_ss_vec maxiter ((singletsPerIrrep w states).enum)
    hall
  constructor
  · rw [tdscf_trace_eq_runIrreps w o dot ints states triplets tda r_tol max_ss_vec
      maxiter guess hv, hrun]
    rfl
  · exact hrun

/-- A concrete oracle whose solver always converges and returns two
eigenpairs. -/
def oracleOK : SolverOracle Rat Unit :=
  { generate_guess := fun _ _ _ => (),
    solve := fun _ _ _ _ _ _ _ _ =>
      { eigvals := [1, 2], eigvecs := [(1, 2), (3, 4)], stats := [⟨true⟩] },
    vector_scale := fun _ c v => (c.a + c.b) * v }

/-- Witness for C8: the protocol theorem applied to a TDA request of two
states on `wfnD2h` with the always-converging oracle. -/
theorem per_irrep_solver_protocol_witness :
    tdscfValidate wfnD2h (.int 2) "none" "denominators" = none ∧
    (∀ p ∈ (singletsPerIrrep wfnD2h (.int 2)).enum, p.2 ≠ 0 →
      blockFails oracleOK (engineSpecOf wfnD2h true "none") true 1 50 60 p = false) ∧
    (tdscf_excitations wfnD2h oracleOK (fun a b => a * b) intsNone (.int 2) "none"
        true 1 50 60 "denominators").1 =
      (singletsPerIrrep wfnD2h (.int 2)).enum.flatMap (fun p =>
        if p.2 = 0 then [] else
          [TdEvent.resetForStateSymm p.1,
           TdEvent.generateGuess p.1 (p.2 * 2),
           TdEvent.solveCall SolverKind.davidson p.1 p.2 1
             ((50 : Int).fdiv p.2) 60]) :=
  ⟨by decide, by decide,
    (per_irrep_solver_protocol wfnD2h oracleOK (fun a b => a * b) intsNone (.int 2)
      "none" true 1 50 60 "denominators" (by decide) (by decide)).1⟩

/-! ## C10: a single spin channel per request -/

/-- Whether a trace event is an invocation of the iterative
eigensolver. -/
def TdEvent.isSolveCall : TdEvent → Bool
  | .solveCall _ _ _ _ _ _ => true
  | _ => false

theorem solveEvents_of_trace (tda : Bool) (r_tol : Rat) (max_ss_vec : Int)
    (maxiter : Nat) :
    ∀ blocks : List (Nat × Int),
    ((blocks.flatMap (fun p => if p.2 = 0 then [] else
        blockEvents tda r_tol max_ss_vec maxiter p)).filter TdEvent.isSolveCall) =
      (blocks.filter (fun p => !(p.2 == 0))).map
        (fun p => TdEvent.solveCall (if tda then .davidson else .hamiltonian) p.1 p.2
          r_tol (max_ss_vec.fdiv p.2) maxiter) := by
  intro blocks
  induction blocks with
  | nil => rfl
  | cons hd rest ih =>
    obtain ⟨k0, n0⟩ := hd
    by_cases h0 : n0 = 0
    · simpa [h0] using ih
    · simp only [List.flatMap_cons, List.filter_cons, List.filter_append, if_neg h0]
      rw [ih]
      simp [h0, blockEvents, TdEvent.isSolveCall]

/-- C10. For a valid call with a restricted reference whose active
blocks all converge, exactly one eigensolver pass is performed per irrep
with a non-zero requested count, regardless of the `triplets` setting:
the engine is constructed once, with triplet mode equal to
`triplets != "none"`, so with `triplets = "also"` no separate singlet
pass is run and the roots cover a single spin channel, and the per-irrep
triplet counts are taken equal to the singlet counts. -/
theorem restricted_single_spin_pass {V G : Type} (w : TdWfn) (o : SolverOracle V G)
    (dot : V → V → Rat) (ints : PropertyIntegrals V) (states : StatesArg)
    (triplets : String) (tda : Bool) (r_tol : Rat) (max_ss_vec : Int)
    (maxiter : Nat) (guess : String)
    (hres : w.same_a_b_orbs = true)
    (hv : tdscfValidate w states triplets guess = none)
    (hall : ∀ p ∈ (singletsPerIrrep w states).enum, p.2 ≠ 0 →
      blockFails o (engineSpecOf w tda triplets) tda r_tol max_ss_vec maxiter p = false) :
    engineSpecOf w tda triplets =
      .restrictedEngine (if tda then .tda else .rpa) (doTriplets triplets) ∧
    (doTriplets triplets = true ↔ triplets ≠ "none") ∧
    tripletsPerIrrep w states = singletsPerIrrep w states ∧
    ((tdscf_excitations w o dot ints states triplets tda r_tol max_ss_vec
        maxiter guess).1.filter TdEvent.isSolveCall) =
      ((singletsPerIrrep w states).enum.filter (fun p => !(p.2 == 0))).map
        (fun p => TdEvent.solveCall (if tda then .davidson else .hamiltonian) p.1 p.2
          r_tol (max_ss_vec.fdiv p.2) maxiter) := by
  refine ⟨by simp [engineSpecOf, hres], by simp [doTriplets], rfl, ?_⟩
  rw [tdscf_trace_eq_runIrreps w o dot ints states triplets tda r_tol max_ss_vec
    maxiter guess hv]
  rw [runIrreps_allDone o (engineSpecOf w tda triplets) w.irrep_labels tda
    (doTriplets triplets) r_tol max_ss_vec maxiter ((singletsPerIrrep w states).enum)
    hall]
  exact solveEvents_of_trace tda r_tol max_ss_vec maxiter _

/-- Witness for C10: a `triplets = "also"` TDA request of three states
on the restricted `wfnD2h` (a non-`needs_xc` functional), solved by the
always-converging oracle: one solver pass per irrep with a non-zero
count. -/
theorem restricted_single_spin_pass_witness :
    wfnD2h.same_a_b_orbs = true ∧
    tdscfValidate wfnD2h (.int 3) "also" "denominators" = none ∧
    (∀ p ∈ (singletsPerIrrep wfnD2h (.int 3)).enum, p.2 ≠ 0 →
      blockFails oracleOK (engineSpecOf wfnD2h true "also") true 1 50 60 p = false) ∧
    (engineSpecOf wfnD2h true "also" =
      .restrictedEngine PType.tda (doTriplets "also") ∧
     (doTriplets "also" = true ↔ "also" ≠ "none") ∧
     tripletsPerIrrep wfnD2h (.int 3) = singletsPerIrrep wfnD2h (.int 3) ∧
     ((tdscf_excitations wfnD2h oracleOK (fun a b => a * b) intsNone (.int 3) "also"
         true 1 50 60 "denominators").1.filter TdEvent.isSolveCall) =
       ((singletsPerIrrep wfnD2h (.int 3)).enum.filter (fun p => !(p.2 == 0))).map
         (fun p => TdEvent.solveCall SolverKind.davidson p.1 p.2 1
           ((50 : Int).fdiv p.2) 60)) :=
  ⟨by decide, by decide, by decide,
    restricted_single_spin_pass wfnD2h oracleOK (fun a b => a * b) intsNone (.int 3)
      "also" true 1 50 60 "denominators" (by decide) (by decide) (by decide)⟩

/-! ## C5: global merge is a stable sort keyed on energy -/

/-- C5. The merged list `sorted(_results, key=lambda x: x[0])` is a
permutation of the flattened per-irrep `(energy, R, L, irrep)` tuples,
is non-decreasing in energy, is stable (the tuples of any fixed energy
appear exactly in their input order), and ignores the metadata:
relabeling the non-energy components commutes with the sort, so the
irrep label is never used as a sort key, even for equal energies. -/
theorem merged_sort_by_energy {V V' : Type} (rs : List (Rat × V × V × Nat))
    (g : (Rat × V × V × Nat) → (Rat × V' × V' × Nat))
    (hg : ∀ x, (g x).1 = x.1) :
    List.Perm (sortByEnergy rs) rs ∧
    (sortByEnergy rs).Pairwise (fun a b => a.1 ≤ b.1) ∧
    (∀ q : Rat, (sortByEnergy rs).filter (fun x => x.1 == q) =
      rs.filter (fun x => x.1 == q)) ∧
    sortByEnergy (rs.map g) = (sortByEnergy rs).map g := by
  have htrans : ∀ a b c : Rat × V × V × Nat,
      decide (a.1 ≤ b.1) → decide (b.1 ≤ c.1) → decide (a.1 ≤ c.1) := by
    intro a b c hab hbc
    simp only [decide_eq_true_eq] at *
    exact le_trans hab hbc
  have htotal : ∀ a b : Rat × V × V × Nat,
      decide (a.1 ≤ b.1) || decide (b.1 ≤ a.1) := by
    intro a b
    rcases le_total a.1 b.1 with h | h <;> simp [h]
  refine ⟨List.mergeSort_perm rs _, ?_, ?_, ?_⟩
  · have hs := List.sorted_mergeSort htrans htotal rs
    exact hs.imp (fun h => by simpa using h)
  · intro q
    have hperm : List.Perm ((sortByEnergy rs).filter (fun x => x.1 == q))
        (rs.filter (fun x => x.1 == q)) :=
      (List.mergeSort_perm rs _).filter _
    have hmem : ∀ x ∈ rs.filter (fun x => x.1 == q), x.1 = q := by
      intro x hx
      simpa using List.of_mem_filter hx
    have hpw : (rs.filter (fun x => x.1 == q)).Pairwise
        (fun a b => decide (a.1 ≤ b.1) = true) :=
      List.pairwise_of_forall_mem_list
        (fun a ha b hb => by simp [hmem a ha, hmem b hb])
    have hsub : List.Sublist (rs.filter (fun x => x.1 == q)) (sortByEnergy rs) :=
      List.sublist_mergeSort htrans htotal hpw (List.filter_sublist rs)
    have h2 := hsub.filter (fun x => x.1 == q)
    rw [List.filter_filter] at h2
    simp only [Bool.and_self] at h2
    have hlen : (rs.filter (fun x => x.1 == q)).length =
        ((sortByEnergy rs).filter (fun x => x.1 == q)).length :=
      hperm.symm.length_eq
    exact (h2.eq_of_length hlen).symm
  · have hl : ∀ a ∈ rs, ∀ b ∈ rs,
        decide (a.1 ≤ b.1) = decide ((g a).1 ≤ (g b).1) := by
      intro a _ b _
      rw [hg a, hg b]
    exact (List.map_mergeSort hl).symm

/-- Witness for C5: a three-tuple list with an energy tie, relabeled by
a metadata map into a different vector type. -/
theorem merged_sort_by_energy_witness :
    (∀ x : Rat × Rat × Rat × Nat, ((fun x => (x.1, (), (), x.2.2.2 + 1)) x :
        Rat × Unit × Unit × Nat).1 = x.1) ∧
    (List.Perm (sortByEnergy [((2 : Rat), (0 : Rat), (0 : Rat), 5), (1, 7, 7, 3), (1, 9, 9, 0)])
        [((2 : Rat), (0 : Rat), (0 : Rat), 5), (1, 7, 7, 3), (1, 9, 9, 0)] ∧
     (sortByEnergy [((2 : Rat), (0 : Rat), (0 : Rat), 5), (1, 7, 7, 3),
        (1, 9, 9, 0)]).Pairwise (fun a b => a.1 ≤ b.1) ∧
     (∀ q : Rat, (sortByEnergy [((2 : Rat), (0 : Rat), (0 : Rat), 5), (1, 7, 7, 3),
          (1, 9, 9, 0)]).filter (fun x => x.1 == q) =
        [((2 : Rat), (0 : Rat), (0 : Rat), 5), (1, 7, 7, 3),
          (1, 9, 9, 0)].filter (fun x => x.1 == q)) ∧
     sortByEnergy ([((2 : Rat), (0 : Rat), (0 : Rat), 5), (1, 7, 7, 3),
          (1, 9, 9, 0)].map (fun x => (x.1, (), (), x.2.2.2 + 1))) =
       (sortByEnergy [((2 : Rat), (0 : Rat), (0 : Rat), 5), (1, 7, 7, 3),
          (1, 9, 9, 0)]).map (fun x => (x.1, (), (), x.2.2.2 + 1))) :=
  ⟨fun _ => rfl,
    merged_sort_by_energy [((2 : Rat), (0 : Rat), (0 : Rat), 5), (1, 7, 7, 3),
      (1, 9, 9, 0)] (fun x => (x.1, (), (), x.2.2.2 + 1)) (fun _ => rfl)⟩

/-! ## C2: rotatory strengths -/

/-- Property integrals with a single unit component in every set, used
by the C2 counterexample. -/
def intsOne : PropertyIntegrals Rat := ⟨[1], [1], [1]⟩

/-- C2 (counterexample). The claim that the velocity-gauge rotatory
strength equals minus the sum of length-velocity cross-moment products
divided by `E_ex` is false: at unit integrals and unit eigenvectors with
`E_ex = 1` the source value is `-(edtm_velocity · mdtm)/E_ex = -1/2`,
while the claimed formula gives
`-(edtm_length · edtm_velocity)/E_ex = -1`. -/
theorem rotatory_strength_counterexample :
    ¬ ((spectroscopicObservables (fun a b => a * b) intsOne 1 1 1).R_velocity =
         -einsumII (spectroscopicObservables (fun a b => a * b) intsOne 1 1 1).edtm_length
           (spectroscopicObservables (fun a b => a * b) intsOne 1 1 1).edtm_velocity / 1 ∧
       (spectroscopicObservables (fun a b => a * b) intsOne 1 1 1).R_length =
         einsumII (spectroscopicObservables (fun a b => a * b) intsOne 1 1 1).edtm_length
           (spectroscopicObservables (fun a b => a * b) intsOne 1 1 1).mdtm) := by
  intro h
  have hv := h.1
  rw [show (spectroscopicObservables (fun a b : Rat => a * b) intsOne 1 1 1).R_velocity
      = -1/2 from by norm_num [spectroscopicObservables, einsumII, intsOne]] at hv
  rw [show -einsumII (spectroscopicObservables (fun a b : Rat => a * b) intsOne 1 1 1).edtm_length
      (spectroscopicObservables (fun a b : Rat => a * b) intsOne 1 1 1).edtm_velocity / 1
      = -1 from by norm_num [spectroscopicObservables, einsumII, intsOne]] at hv
  norm_num at hv

/-- C2 (amended). For every merged root, the transition moments are the
stated projections of `R` and `L` on the property integrals; the
velocity-gauge rotatory strength equals minus the sum of
velocity-magnetic cross-moment products divided by `E_ex` (not
length-velocity ones), and the length-gauge rotatory strength equals the
sum of length-magnetic cross-moment products. -/
theorem rotatory_strength_formulas {V : Type} (dot : V → V → Rat)
    (ints : PropertyIntegrals V) (E_ex : Rat) (R L : V) :
    (spectroscopicObservables dot ints E_ex R L).edtm_length =
      ints.lengthGaugeElectricDipole.map (fun p => dot R p) ∧
    (spectroscopicObservables dot ints E_ex R L).edtm_velocity =
      ints.velocityGaugeElectricDipole.map (fun p => dot L p) ∧
    (spectroscopicObservables dot ints E_ex R L).mdtm =
      ints.magneticDipole.map (fun p => 1 / 2 * dot L p) ∧
    (spectroscopicObservables dot ints E_ex R L).R_velocity =
      -einsumII ((spectroscopicObservables dot ints E_ex R L).edtm_velocity)
        ((spectroscopicObservables dot ints E_ex R L).mdtm) / E_ex ∧
    (spectroscopicObservables dot ints E_ex R L).R_length =
      einsumII ((spectroscopicObservables dot ints E_ex R L).edtm_length)
        ((spectroscopicObservables dot ints E_ex R L).mdtm) :=
  ⟨rfl, rfl, rfl, rfl, rfl⟩

/-! ## C6: prescaling and AO→MO transformation -/

theorem collectPairs_eq_flatMap (mints : CpMints) :
    ∀ descs : List CpDesc,
    collectPairs mints descs = descs.flatMap (fun d =>
      match d with
      | .user _ vs ns => ns.zip vs
      | .prop info => (info.mints_function.apply mints).map
          (fun tmp => ((tmp.scale (-2)).name, tmp.scale (-2)))) := by
  intro descs
  induction descs with
  | nil => rfl
  | cons d rest ih =>
    cases d with
    | user len vs ns => simp [collectPairs, ih]
    | prop info => simp [collectPairs, ih]

theorem transformAll_ok (nbf ndocc nvirt : Nat) (c_occ c_vir : NamedMat) :
    ∀ pairs : List (String × NamedMat),
    (∀ p ∈ pairs, p.2.shape = (nbf, nbf) ∨ p.2.shape = (ndocc, nvirt)) →
    transformAll nbf ndocc nvirt c_occ c_vir pairs =
      .ok (pairs.map (fun p =>
        if p.2.shape = (nbf, nbf) then tripletTFF c_occ p.2 c_vir else p.2)) := by
  intro pairs
  induction pairs with
  | nil => intro _; rfl
  | cons hd rest ih =>
    intro hall
    obtain ⟨nm, v⟩ := hd
    have hrest := ih (fun p hp => hall p (List.mem_cons_of_mem _ hp))
    have hv : transformVec nbf ndocc nvirt c_occ c_vir nm v =
        .ok (if v.shape = (nbf, nbf) then tripletTFF c_occ v c_vir else v) := by
      rcases hall (nm, v) (List.mem_cons_self _ _) with h | h
      · simp [transformVec, h]
      · by_cases h2 : v.shape = (nbf, nbf)
        · simp [transformVec, h2]
        · simp only [transformVec, h2, h, if_neg, if_false]
          split <;> simp_all [NamedMat.shape]
    show (do
      let t ← transformVec nbf ndocc nvirt c_occ c_vir nm v
      let ts ← transformAll nbf ndocc nvirt c_occ c_vir rest
      pure (t :: ts)) = _
    rw [hv, hrest]
    rfl

theorem transformAll_error (nbf ndocc nvirt : Nat) (c_occ c_vir : NamedMat)
    (nm : String) (v : NamedMat) :
    ∀ (pre post : List (String × NamedMat)),
    (∀ p ∈ pre, p.2.shape = (nbf, nbf) ∨ p.2.shape = (ndocc, nvirt)) →
    v.shape ≠ (nbf, nbf) → v.shape ≠ (ndocc, nvirt) →
    transformAll nbf ndocc nvirt c_occ c_vir (pre ++ (nm, v) :: post) =
      .error (.validation ("ERROR: \"" ++ nm ++ "\" has an unrecognized shape. "
        ++ "Must be either (" ++ toString nbf ++ ", " ++ toString nbf ++ ") or ("
        ++ toString ndocc ++ ", " ++ toString nvirt ++ ")")) := by
  intro pre
  induction pre with
  | nil =>
    intro post _ h1 h2
    show (do
      let t ← transformVec nbf ndocc nvirt c_occ c_vir nm v
      let ts ← transformAll nbf ndocc nvirt c_occ c_vir post
      pure (t :: ts)) = _
    rw [show transformVec nbf ndocc nvirt c_occ c_vir nm v =
      .error (.validation ("ERROR: \"" ++ nm ++ "\" has an unrecognized shape. "
        ++ "Must be either (" ++ toString nbf ++ ", " ++ toString nbf ++ ") or ("
        ++ toString ndocc ++ ", " ++ toString nvirt ++ ")")) from by
      simp [transformVec, h1, h2]]
    rfl
  | cons hd rest ih =>
    intro post hpre h1 h2
    obtain ⟨nm0, v0⟩ := hd
    have hrest := ih post (fun p hp => hpre p (List.mem_cons_of_mem _ hp)) h1 h2
    have hv0 : transformVec nbf ndocc nvirt c_occ c_vir nm0 v0 =
        .ok (if v0.shape = (nbf, nbf) then tripletTFF c_occ v0 c_vir else v0) := by
      rcases hpre (nm0, v0) (List.mem_cons_self _ _) with h | h
      · simp [transformVec, h]
      · by_cases h2c : v0.shape = (nbf, nbf)
        · simp [transformVec, h2c]
        · simp only [transformVec, h2c, h, if_neg, if_false]
          split <;> simp_all [NamedMat.shape]
    show (do
      let t ← transformVec nbf ndocc nvirt c_occ c_vir nm0 v0
      let ts ← transformAll nbf ndocc nvirt c_occ c_vir (rest ++ (nm, v) :: post)
      pure (t :: ts)) = _
    rw [hv0, hrest]
    rfl

/-- C6. In `cpscf_linear_response`, every keyword-sourced integral
vector is scaled by the fixed factor `-2.0` when collected (the scaling
multiplies every entry by `-2` and preserves the name and shape); then,
in the transformation loop, a vector of shape `(nbf, nbf)` is projected
into the occupied-virtual MO block as `Cocc^T · V · Cvir`, a vector
already of shape `(ndocc, nvirt)` passes through unchanged, and a batch
containing a vector of any other shape raises a validation error whose
message names that vector. -/
theorem cpscf_prescale_and_transform (mints : CpMints) (descs : List CpDesc)
    (nbf ndocc nvirt : Nat) (c_occ c_vir : NamedMat) :
    (∀ (m : NamedMat) (c : Rat), (m.scale c).name = m.name ∧
      (m.scale c).rows = m.rows ∧ (m.scale c).cols = m.cols ∧
      ∀ i j, (m.scale c).entry i j = c * m.entry i j) ∧
    collectPairs mints descs = descs.flatMap (fun d =>
      match d with
      | .user _ vs ns => ns.zip vs
      | .prop info => (info.mints_function.apply mints).map
          (fun tmp => ((tmp.scale (-2)).name, tmp.scale (-2)))) ∧
    (∀ pairs : List (String × NamedMat),
      (∀ p ∈ pairs, p.2.shape = (nbf, nbf) ∨ p.2.shape = (ndocc, nvirt)) →
      transformAll nbf ndocc nvirt c_occ c_vir pairs =
        .ok (pairs.map (fun p =>
          if p.2.shape = (nbf, nbf) then tripletTFF c_occ p.2 c_vir else p.2))) ∧
    (∀ (pre post : List (String × NamedMat)) (nm : String) (v : NamedMat),
      (∀ p ∈ pre, p.2.shape = (nbf, nbf) ∨ p.2.shape = (ndocc, nvirt)) →
      v.shape ≠ (nbf, nbf) → v.shape ≠ (ndocc, nvirt) →
      transformAll nbf ndocc nvirt c_occ c_vir (pre ++ (nm, v) :: post) =
        .error (.validation ("ERROR: \"" ++ nm ++ "\" has an unrecognized shape. "
          ++ "Must be either (" ++ toString nbf ++ ", " ++ toString nbf ++ ") or ("
          ++ toString ndocc ++ ", " ++ toString nvirt ++ ")"))) :=
  ⟨fun m c => ⟨rfl, rfl, rfl, fun _ _ => rfl⟩,
   collectPairs_eq_flatMap mints descs,
   transformAll_ok nbf ndocc nvirt c_occ c_vir,
   fun pre post nm v hpre h1 h2 =>
     transformAll_error nbf ndocc nvirt c_occ c_vir nm v pre post hpre h1 h2⟩

/-- A concrete full-AO-shape matrix (shape `(2, 2)`). -/
def matA : NamedMat := ⟨"A", 2, 2, fun i j => (i : Rat) + j⟩

/-- A concrete wrong-shape matrix (shape `(3, 1)`). -/
def matBad : NamedMat := ⟨"bad", 3, 1, fun _ _ => 0⟩

/-- A concrete MO coefficient block (shape `(2, 1)`). -/
def matC : NamedMat := ⟨"C", 2, 1, fun _ _ => 1⟩

/-- An empty integral provider for witnesses. -/
def mintsEmpty : CpMints := ⟨[], [], []⟩

/-- Witness for C6: with `nbf = 2`, `ndocc = nvirt = 1`, a batch holding
a well-shaped vector followed by a `(3, 1)` vector fails with the
validation error naming `bad`. -/
theorem cpscf_prescale_and_transform_witness :
    (∀ p ∈ [("A", matA)], p.2.shape = (2, 2) ∨ p.2.shape = (1, 1)) ∧
    matBad.shape ≠ (2, 2) ∧ matBad.shape ≠ (1, 1) ∧
    transformAll 2 1 1 matC matC ([("A", matA)] ++ ("bad", matBad) :: []) =
      .error (.validation ("ERROR: \"" ++ "bad" ++ "\" has an unrecognized shape. "
        ++ "Must be either (" ++ toString (2 : Nat) ++ ", " ++ toString (2 : Nat)
        ++ ") or (" ++ toString (1 : Nat) ++ ", " ++ toString (1 : Nat) ++ ")")) :=
  ⟨by decide, by decide, by decide,
    (cpscf_prescale_and_transform mintsEmpty [] 2 1 1 matC matC).2.2.2
      [("A", matA)] [] "bad" matBad (by decide) (by decide) (by decide)⟩

/-! ## C9: CPSCF request validation -/

/-- The first argument that is an unknown property keyword, if any
(parsing processes arguments in order and only keyword arguments can be
unknown). -/
def firstUnknownKeyword (args : List CpArg) : Option String :=
  args.findSome? (fun a =>
    match a with
    | .kw s => if (property_dicts s).isSome then none else some s
    | _ => none)

theorem buildDescs_error_of_unknown :
    ∀ (args : List CpArg) (n_user : Nat) (s : String),
    firstUnknownKeyword args = some s →
    buildDescs args n_user =
      .error (.validation ("Do not understand " ++ s ++ ". Abort.")) := by
  intro args
  induction args with
  | nil => intro n s h; simp [firstUnknownKeyword] at h
  | cons a rest ih =>
    intro n s h
    cases a with
    | kw s0 =>
      rcases hk : property_dicts s0 with _ | info
      · have hs : s0 = s := by
          simp [firstUnknownKeyword, List.findSome?_cons, hk] at h
          exact h
        subst hs
        simp [buildDescs, hk]
      · have h' : firstUnknownKeyword rest = some s := by
          simpa [firstUnknownKeyword, List.findSome?_cons, hk] using h
        simp only [buildDescs, hk]
        rw [ih n s h']
        rfl
    | vecList vs =>
      have h' : firstUnknownKeyword rest = some s := by
        simpa [firstUnknownKeyword, List.findSome?_cons] using h
      simp only [buildDescs]
      rw [ih (n + vs.length) s h']
      rfl
    | vec v =>
      have h' : firstUnknownKeyword rest = some s := by
        simpa [firstUnknownKeyword, List.findSome?_cons] using h
      simp only [buildDescs]
      rw [ih (n + 1) s h']
      rfl

theorem exceptBind_ok {ε α β : Type} (a : α) (f : α → Except ε β) :
    (Except.ok a >>= f) = f a := rfl

theorem exceptBind_error {ε α β : Type} (e : ε) (f : α → Except ε β) :
    ((Except.error e : Except ε α) >>= f) = Except.error e := rfl

/-- C9. `cpscf_linear_response` raises a validation error when any
string argument is not a known property keyword (the first such, in
argument order), and raises a validation error when the arguments yield
zero usable vectors in total; in both cases the result is the error for
every external CPHF solver, so no response computation is performed. -/
theorem cpscf_validation_errors (wfn : CpWfn) (mints : CpMints) (args : List CpArg)
    (conv_tol : Rat) (max_iter print_lvl : Nat) :
    (∀ s, firstUnknownKeyword args = some s →
      cpscf_linear_response wfn mints args conv_tol max_iter print_lvl =
        .error (.validation ("Do not understand " ++ s ++ ". Abort."))) ∧
    (∀ descs, buildDescs args 0 = .ok descs → collectPairs mints descs = [] →
      cpscf_linear_response wfn mints args conv_tol max_iter print_lvl =
        .error (.validation "I have no vectors to work with. Aborting.")) := by
  constructor
  · intro s h
    have hb := buildDescs_error_of_unknown args 0 s h
    simp only [cpscf_linear_response]
    rw [hb]
    rfl
  · intro descs hd hc
    simp only [cpscf_linear_response, hd, exceptBind_ok]
    rw [hc]
    rfl

/-- A concrete CPSCF wavefunction whose external solve echoes its input
vectors. -/
def wfnCp : CpWfn := ⟨2, 1, matC, matC, fun vs _ _ _ => vs⟩

/-- Witness for C9: an unknown keyword `"FOO"` errors with the
`Do not understand` message, and an empty argument list errors with the
no-vectors message. -/
theorem cpscf_validation_errors_witness :
    firstUnknownKeyword [CpArg.kw "FOO"] = some "FOO" ∧
    buildDescs ([] : List CpArg) 0 = .ok [] ∧
    collectPairs mintsEmpty [] = [] ∧
    cpscf_linear_response wfnCp mintsEmpty [CpArg.kw "FOO"] 1 10 2 =
      .error (.validation ("Do not understand " ++ "FOO" ++ ". Abort.")) ∧
    cpscf_linear_response wfnCp mintsEmpty [] 1 10 2 =
      .error (.validation "I have no vectors to work with. Aborting.") :=
  ⟨by decide, rfl, rfl,
    (cpscf_validation_errors wfnCp mintsEmpty [CpArg.kw "FOO"] 1 10 2).1 "FOO" (by decide),
    (cpscf_validation_errors wfnCp mintsEmpty [] 1 10 2).2 [] rfl rfl⟩

/-! ## C7: output assembly -/

/-- The vector names a descriptor contributes, in order (the registry
`vector names` for a keyword descriptor, the generated names for a user
descriptor). -/
def descNames : CpDesc → List String
  | .user _ _ ns => ns
  | .prop info => info.vector_names

/-- All vector names of a descriptor list, flattened in order. -/
def namesOf (descs : List CpDesc) : List String := descs.flatMap descNames

/-- Whether an arity-0 user descriptor carries its single generated name
(always true for descriptors built from a bare vector argument). -/
def arityZeroNamed : CpDesc → Bool
  | .user 0 _ ns => !ns.isEmpty
  | _ => true

/-- The per-descriptor output the spec describes, positionally: for a
keyword descriptor the `k × k` tensor of `-1 * dot(vector i, response
j)` over that descriptor's own (transformed) vectors and responses; for
an arity-0 user descriptor the single response unwrapped; for an
arity-`k > 0` user descriptor the list of its `k` responses in order. -/
def specOutput : CpDesc → List NamedMat → List NamedMat → CpOut
  | .user 0 _ _, _, rsSeg => .single (rsSeg.headD default)
  | .user _ _ _, _, rsSeg => .listOut rsSeg
  | .prop _, tvSeg, rsSeg =>
    .tensor (tvSeg.map (fun vi => rsSeg.map (fun rj => -1 * vi.vector_dot rj)))

/-- The positional (dictionary-free) description of the whole output
list: one entry per descriptor, in input order, each consuming that
descriptor's segment of the transformed vectors and of the responses. -/
def specAssembleFrom (TV RS : List NamedMat) : List CpDesc → Nat → List CpOut
  | [], _ => []
  | d :: rest, off =>
    specOutput d ((TV.drop off).take (descNames d).length)
        ((RS.drop off).take (descNames d).length) ::
      specAssembleFrom TV RS rest (off + (descNames d).length)

theorem dictGet_cons (p : String × NamedMat) (rest : List (String × NamedMat))
    (key : String) :
    dictGet (p :: rest) key =
      match dictGet rest key with
      | .ok v => .ok v
      | .error _ => if p.1 = key then .ok p.2 else .error (.keyError key) := rfl

theorem dictGet_zip_not_mem (key : String) :
    ∀ (ns : List String) (vals : List NamedMat), key ∉ ns →
    dictGet (ns.zip vals) key = .error (.keyError key) := by
  intro ns
  induction ns with
  | nil => intro vals _; rfl
  | cons n ns' ih =>
    intro vals hkey
    cases vals with
    | nil => rfl
    | cons v vs' =>
      have h1 : key ∉ ns' := fun h => hkey (List.mem_cons_of_mem _ h)
      have h2 : n ≠ key := fun h => hkey (h ▸ List.mem_cons_self _ _)
      rw [List.zip_cons_cons, dictGet_cons, ih vs' h1]
      simp [h2]

theorem dictGet_zip_get :
    ∀ (ns : List String) (vals : List NamedMat) (j : Nat) (hnd : ns.Nodup)
      (hlen : vals.length = ns.length) (hj : j < ns.length) (hj2 : j < vals.length),
    dictGet (ns.zip vals) (ns.get ⟨j, hj⟩) = .ok (vals.get ⟨j, hj2⟩) := by
  intro ns
  induction ns with
  | nil => intro vals j _ _ hj; simp at hj
  | cons n ns' ih =>
    intro vals j hnd hlen hj hj2
    cases vals with
    | nil => simp at hlen
    | cons v vs' =>
      cases j with
      | zero =>
        have hnot : n ∉ ns' := (List.nodup_cons.mp hnd).1
        show dictGet ((n :: ns').zip (v :: vs')) n = .ok v
        rw [List.zip_cons_cons, dictGet_cons, dictGet_zip_not_mem n ns' vs' hnot]
        simp
      | succ j' =>
        have hj' : j' < ns'.length := by simpa using hj
        have hj2' : j' < vs'.length := by simpa using hj2
        have hrec := ih vs' j' (List.nodup_cons.mp hnd).2 (by simpa using hlen) hj' hj2'
        show dictGet ((n :: ns').zip (v :: vs')) (ns'.get ⟨j', hj'⟩) =
          .ok (vs'.get ⟨j', hj2'⟩)
        rw [List.zip_cons_cons, dictGet_cons, hrec]

theorem mapM_dictGet_segment (NS : List String) (VALS : List NamedMat)
    (hnd : NS.Nodup) (hlen : VALS.length = NS.length) :
    ∀ (k off : Nat), off + k ≤ NS.length →
    ((NS.drop off).take k).mapM (dictGet (NS.zip VALS)) =
      .ok ((VALS.drop off).take k) := by
  intro k
  induction k with
  | zero => intro off _; simp [List.mapM_nil]; rfl
  | succ k' ih =>
    intro off hk
    have hoff : off < NS.length := by omega
    have hoff2 : off < VALS.length := by omega
    rw [List.drop_eq_getElem_cons hoff, List.drop_eq_getElem_cons hoff2,
      List.take_succ_cons, List.take_succ_cons, List.mapM_cons]
    have hget : dictGet (NS.zip VALS) NS[off] = .ok VALS[off] := by
      have h := dictGet_zip_get NS VALS off hnd hlen hoff hoff2
      simpa [List.get_eq_getElem] using h
    rw [hget]
    have := ih (off + 1) (by omega)
    rw [show ((NS.drop (off + 1)).take k').mapM (dictGet (NS.zip VALS)) =
      .ok ((VALS.drop (off + 1)).take k') from this]
    rfl

theorem mapM_dictGet_post {α : Type} (NS : List String) (VALS : List NamedMat)
    (hnd : NS.Nodup) (hlen : VALS.length = NS.length) (g : NamedMat → α) :
    ∀ (k off : Nat), off + k ≤ NS.length →
    ((NS.drop off).take k).mapM (fun nm => do
      let x ← dictGet (NS.zip VALS) nm
      pure (g x)) = .ok (((VALS.drop off).take k).map g) := by
  intro k
  induction k with
  | zero => intro off _; simp [List.mapM_nil]; rfl
  | succ k' ih =>
    intro off hk
    have hoff : off < NS.length := by omega
    have hoff2 : off < VALS.length := by omega
    rw [List.drop_eq_getElem_cons hoff, List.drop_eq_getElem_cons hoff2,
      List.take_succ_cons, List.take_succ_cons, List.mapM_cons]
    have hget : dictGet (NS.zip VALS) NS[off] = .ok VALS[off] := by
      have h := dictGet_zip_get NS VALS off hnd hlen hoff hoff2
      simpa [List.get_eq_getElem] using h
    rw [hget]
    rw [ih (off + 1) (by omega)]
    rfl

theorem tensor_rows_spec (NS : List String) (TV RS : List NamedMat)
    (hnd : NS.Nodup) (hlT : TV.length = NS.length) (hlR : RS.length = NS.length)
    (k off : Nat) (hko : off + k ≤ NS.length) :
    ∀ (ki offi : Nat), offi + ki ≤ NS.length →
    ((NS.drop offi).take ki).mapM (fun i_name =>
      ((NS.drop off).take k).mapM (fun j_name => do
        let vi ← dictGet (NS.zip TV) i_name
        let rj ← dictGet (NS.zip RS) j_name
        pure (-1 * vi.vector_dot rj))) =
      .ok (((TV.drop offi).take ki).map (fun vi =>
        ((RS.drop off).take k).map (fun rj => -1 * vi.vector_dot rj))) := by
  intro ki
  induction ki with
  | zero => intro offi _; simp [List.mapM_nil]; rfl
  | succ ki' ih =>
    intro offi hki
    have hoffi : offi < NS.length := by omega
    have hoffi2 : offi < TV.length := by omega
    rw [List.drop_eq_getElem_cons hoffi, List.drop_eq_getElem_cons hoffi2,
      List.take_succ_cons, List.take_succ_cons, List.mapM_cons]
    have hvi : dictGet (NS.zip TV) NS[offi] = .ok TV[offi] := by
      have h := dictGet_zip_get NS TV offi hnd hlT hoffi hoffi2
      simpa [List.get_eq_getElem] using h
    have hinner : ((NS.drop off).take k).mapM (fun j_name => do
        let vi ← dictGet (NS.zip TV) NS[offi]
        let rj ← dictGet (NS.zip RS) j_name
        pure (-1 * vi.vector_dot rj)) =
      .ok (((RS.drop off).take k).map (fun rj => -1 * TV[offi].vector_dot rj)) := by
      simp only [hvi]
      exact mapM_dictGet_post NS RS hnd hlR
        (fun rj => -1 * TV[offi].vector_dot rj) k off hko
    rw [hinner, ih (offi + 1) (by omega)]
    rfl

theorem assembleOne_spec (NS : List String) (TV RS : List NamedMat)
    (hnd : NS.Nodup) (hlT : TV.length = NS.length) (hlR : RS.length = NS.length)
    (d : CpDesc) (off : Nat)
    (hseg : descNames d = (NS.drop off).take (descNames d).length)
    (hle : off + (descNames d).length ≤ NS.length)
    (h0 : arityZeroNamed d = true) :
    assembleOne (NS.zip TV) (NS.zip RS) d =
      .ok (specOutput d ((TV.drop off).take (descNames d).length)
        ((RS.drop off).take (descNames d).length)) := by
  cases d with
  | user len vs ns =>
    have hs : ns = (NS.drop off).take ns.length := by simpa [descNames] using hseg
    have hl : off + ns.length ≤ NS.length := by simpa [descNames] using hle
    cases len with
    | zero =>
      cases ns with
      | nil => simp [arityZeroNamed] at h0
      | cons n0 ns' =>
        have hoff : off < NS.length := by
          have : (n0 :: ns').length = ns'.length + 1 := rfl
          omega
        have hoff2 : off < RS.length := by omega
        have hn0 : n0 = NS[off] := by
          rw [List.drop_eq_getElem_cons hoff] at hs
          simp only [List.length_cons, List.take_succ_cons] at hs
          exact (List.cons_eq_cons.mp hs).1
        have hget : dictGet (NS.zip RS) n0 = .ok RS[off] := by
          rw [hn0]
          have h := dictGet_zip_get NS RS off hnd hlR hoff hoff2
          simpa [List.get_eq_getElem] using h
        show ((dictGet (NS.zip RS) n0).map CpOut.single) = _
        rw [hget]
        have hspec : specOutput (CpDesc.user 0 vs (n0 :: ns'))
            ((TV.drop off).take (descNames (CpDesc.user 0 vs (n0 :: ns'))).length)
            ((RS.drop off).take (descNames (CpDesc.user 0 vs (n0 :: ns'))).length) =
            .single RS[off] := by
          show CpOut.single (((RS.drop off).take (n0 :: ns').length).headD default) = _
          rw [List.drop_eq_getElem_cons hoff2]
          simp only [List.length_cons, List.take_succ_cons]
          rfl
        rw [hspec]
        rfl
    | succ len' =>
      show ((ns.mapM (dictGet (NS.zip RS))).map CpOut.listOut) = _
      rw [show ns.mapM (dictGet (NS.zip RS)) =
          .ok ((RS.drop off).take ns.length) from by
        conv in ns.mapM _ => rw [hs]
        exact mapM_dictGet_segment NS RS hnd hlR ns.length off hl]
      rfl
  | prop info =>
    have hs : info.vector_names =
        (NS.drop off).take info.vector_names.length := by
      simpa [descNames] using hseg
    have hl : off + info.vector_names.length ≤ NS.length := by
      simpa [descNames] using hle
    have htensor := tensor_rows_spec NS TV RS hnd hlT hlR
      info.vector_names.length off hl info.vector_names.length off hl
    rw [← hs] at htensor
    show (do
      let rows ← info.vector_names.mapM (fun i_name =>
        info.vector_names.mapM (fun j_name => do
          let vi ← dictGet (NS.zip TV) i_name
          let rj ← dictGet (NS.zip RS) j_name
          pure (-1 * vi.vector_dot rj)))
      pure (CpOut.tensor rows)) = _
    rw [htensor]
    rfl

theorem assembleAll_spec (NS : List String) (TV RS : List NamedMat)
    (hnd : NS.Nodup) (hlT : TV.length = NS.length) (hlR : RS.length = NS.length) :
    ∀ (descs : List CpDesc) (off : Nat), off ≤ NS.length →
    NS.drop off = namesOf descs →
    (∀ d ∈ descs, arityZeroNamed d = true) →
    assembleAll (NS.zip TV) (NS.zip RS) descs =
      .ok (specAssembleFrom TV RS descs off) := by
  intro descs
  induction descs with
  | nil => intro off _ _ _; rfl
  | cons d rest ih =>
    intro off hoffle hdrop hok
    have hsplit : NS.drop off = descNames d ++ namesOf rest := by
      rw [hdrop]; rfl
    have hlen_drop : NS.length - off = (descNames d).length + (namesOf rest).length := by
      have h := congrArg List.length hsplit
      simpa using h
    have hle : off + (descNames d).length ≤ NS.length := by omega
    have hseg : descNames d = (NS.drop off).take (descNames d).length := by
      rw [hsplit, List.take_left]
    have h1 := assembleOne_spec NS TV RS hnd hlT hlR d off hseg hle
      (hok d (List.mem_cons_self _ _))
    have hdrop' : NS.drop (off + (descNames d).length) = namesOf rest := by
      rw [← List.drop_drop, hsplit, List.drop_left]
    have hrec := ih (off + (descNames d).length) (by omega) hdrop'
      (fun d' hd' => hok d' (List.mem_cons_of_mem _ hd'))
    show (d :: rest).mapM (assembleOne (NS.zip TV) (NS.zip RS)) = _
    rw [List.mapM_cons, h1]
    rw [show rest.mapM (assembleOne (NS.zip TV) (NS.zip RS)) =
      .ok (specAssembleFrom TV RS rest (off + (descNames d).length)) from hrec]
    rfl

theorem specAssembleFrom_length (TV RS : List NamedMat) :
    ∀ (descs : List CpDesc) (off : Nat),
    (specAssembleFrom TV RS descs off).length = descs.length := by
  intro descs
  induction descs with
  | nil => intro off; rfl
  | cons d rest ih => intro off; simp [specAssembleFrom, ih]

/-- C7. The output list has one entry per input descriptor, in input
order: a keyword descriptor with `k` named vectors yields the `k × k`
tensor whose `(i, j)` entry is `-1` times the dot product of that
descriptor's `i`-th (transformed) perturbation vector with its `j`-th
response; an arity-0 raw descriptor (a single vector passed without list
wrapping) yields its single response unwrapped; an arity-`k > 0` raw
descriptor yields the list of its `k` responses in original order.  The
hypotheses are those of a well-formed call: the dictionary keys are the
flattened descriptor names, with no duplicates, and the solver returned
one response per vector. -/
theorem cpscf_output_shape (NS : List String) (TV RS : List NamedMat)
    (descs : List CpDesc)
    (hnames : NS = namesOf descs)
    (hnd : NS.Nodup)
    (hlT : TV.length = NS.length) (hlR : RS.length = NS.length)
    (h0 : ∀ d ∈ descs, arityZeroNamed d = true) :
    assembleAll (NS.zip TV) (NS.zip RS) descs = .ok (specAssembleFrom TV RS descs 0) ∧
    (specAssembleFrom TV RS descs 0).length = descs.length ∧
    (∀ (info : PropKeywordInfo) (tvSeg rsSeg : List NamedMat),
      specOutput (.prop info) tvSeg rsSeg =
        .tensor (tvSeg.map (fun vi => rsSeg.map (fun rj => -1 * vi.vector_dot rj)))) ∧
    (∀ (vs : List NamedMat) (ns : List String) (tvSeg rsSeg : List NamedMat),
      specOutput (.user 0 vs ns) tvSeg rsSeg = .single (rsSeg.headD default)) ∧
    (∀ (len : Nat) (vs : List NamedMat) (ns : List String)
      (tvSeg rsSeg : List NamedMat), len ≠ 0 →
      specOutput (.user len vs ns) tvSeg rsSeg = .listOut rsSeg) := by
  refine ⟨?_, specAssembleFrom_length TV RS descs 0,
    fun info tvSeg rsSeg => rfl, fun vs ns tvSeg rsSeg => rfl,
    fun len vs ns tvSeg rsSeg hlen => ?_⟩
  · exact assembleAll_spec NS TV RS hnd hlT hlR descs 0 (Nat.zero_le _)
      (by simpa using hnames) h0
  · cases len with
    | zero => exact absurd rfl hlen
    | succ len' => rfl

/-- The descriptor list of the C7 witness: one keyword descriptor, one
bare user vector, one two-vector user list. -/
def descsD : List CpDesc :=
  [CpDesc.prop dipoleInfo,
   CpDesc.user 0 [matA] ["User Vector 0"],
   CpDesc.user 2 [matA, matA] ["User Vector 1_0", "User Vector 1_1"]]

/-- The six transformed perturbation vectors of the C7 witness. -/
def tvD : List NamedMat := List.replicate 6 matC

/-- The six response vectors of the C7 witness. -/
def rsD : List NamedMat := List.replicate 6 matA

/-- Witness for C7 at a concrete three-descriptor request. -/
theorem cpscf_output_shape_witness :
    ((namesOf descsD).Nodup ∧ tvD.length = (namesOf descsD).length ∧
      rsD.length = (namesOf descsD).length ∧
      (∀ d ∈ descsD, arityZeroNamed d = true)) ∧
    assembleAll ((namesOf descsD).zip tvD) ((namesOf descsD).zip rsD) descsD =
      .ok (specAssembleFrom tvD rsD descsD 0) :=
  ⟨⟨by decide, by decide, by decide, by decide⟩,
   (cpscf_output_shape (namesOf descsD) tvD rsD descsD rfl (by decide) (by decide)
     (by decide) (by decide)).1⟩
